import Mathlib

/-!
Shallow embedding of the synchronization core in `src/pintos/src/threads/synch.c`
(counting semaphore, lock with priority donation, Mesa-style condition variable),
together with theorems settling the specification claims about it.

Machine integers: the semaphore counter is a C `unsigned`, modelled as `Nat`
with an explicit `% 2 ^ 32` on increment; priorities are C `int`, modelled as `Int`
(no arithmetic is performed on them, only comparisons and assignments).

Code of the repository that is referenced by `synch.c` but not present under
`src/` (threads/thread.h, threads/thread.c, threads/synch.h, lib/kernel/list.c)
is modelled from the spec; every such definition carries a doc comment starting
with `Modelled from the spec:`.
-/

namespace Synch

/-- Thread identity (a `struct thread *` in the source). -/
abbrev Tid := Nat

/-- Lock identity (a `struct lock *` in the source). -/
abbrev LockId := Nat

/-- Priority values are C `int`. -/
abbrev Priority := Int

/-- Modulus of the C `unsigned` type used for `sema->value`. -/
def UINT_MOD : Nat := 2 ^ 32

/-- Modelled from the spec: the donation-walk depth bound `LOCK_LEVEL` is declared in
`threads/synch.h`, which is not under `src/`; §4.2 of the spec describes it as a fixed
small constant, e.g. 8. None of the depth-bound theorems depend on the exact value. -/
def LOCK_LEVEL : Nat := 8

/-- Modelled from the spec: the sentinel `PRIORITY_FAKE` (the "none" donation ceiling)
is declared in `threads/synch.h`, which is not under `src/`. The value -1 matches the
sentinel that `lock_priority_compare` in `synch.c` itself uses for an empty waiter
list, and is below every real Pintos priority. -/
def PRIORITY_FAKE : Priority := -1

/-- Thread states, from `enum thread_status` in `threads/thread.h` (names are used
directly by `synch.c`: `THREAD_READY` in `sema_up`, blocking via `thread_block`). -/
inductive ThreadStatus
  | RUNNING
  | READY
  | BLOCKED
  | DYING
  deriving DecidableEq

/-- Modelled from the spec: the fields of `struct thread` (from `threads/thread.h`,
not under `src/`) that `synch.c` reads or writes, named as in the source:
`priority` (effective), `priority_original` (base), `is_donated`, `waiting_for_lock`,
`locks` (the held-locks list), and the scheduler-owned `status`. -/
structure Thread where
  priority : Priority
  priority_original : Priority
  is_donated : Bool
  waiting_for_lock : Option LockId
  locks : List LockId
  status : ThreadStatus
  deriving DecidableEq

/-- A semaphore: the `unsigned value` counter plus the waiters queue of blocked
thread references (`struct semaphore` from `threads/synch.h`, fields as used by
`synch.c`). -/
structure Sem where
  value : Nat
  waiters : List Tid
  deriving DecidableEq

/-- A lock: optional holder, internal semaphore, and per-lock donation ceiling
`priority_lock` (`struct lock` from `threads/synch.h`, fields as used by `synch.c`). -/
structure Lock where
  holder : Option Tid
  semaphore : Sem
  priority_lock : Priority
  deriving DecidableEq

/-- Global state touched by the lock operations: every thread record and every
lock record. -/
structure SyncState where
  threads : Tid → Thread
  locks : LockId → Lock

/-- Modelled from the spec: `list_insert_ordered` from `lib/kernel/list.c` (the
generic ordered-container utility, out of scope per §1 and specified at its
interface in §6: insert maintaining order by comparator). The element is placed
in front of the first list element for which the comparator returns true. -/
def list_insert_ordered (less : α → α → Bool) (x : α) : List α → List α
  | [] => [x]
  | y :: ys => if less x y then x :: y :: ys else y :: list_insert_ordered less x ys

/-! ## Semaphore operations (`sema_init`, `sema_down`, `sema_try_down`, `sema_up`) -/

/-- `sema_init`: sets the counter and empties the waiters queue. -/
def sema_init (value : Nat) : Sem :=
  { value := value, waiters := [] }

/-- Modelled from the spec: `thread_unblock` from `threads/thread.c` (not under
`src/`) marks the given thread ready (§6: `unblock(thread)` — mark a thread ready). -/
def thread_unblock (ths : Tid → Thread) (t : Tid) : Tid → Thread :=
  Function.update ths t { ths t with status := ThreadStatus.READY }

/-- Modelled from the spec: `thread_block` from `threads/thread.c` (not under
`src/`) suspends the calling thread (§6: `block()`). -/
def thread_block (ths : Tid → Thread) (t : Tid) : Tid → Thread :=
  Function.update ths t { ths t with status := ThreadStatus.BLOCKED }

/-- Drain loop of `sema_up`: pops threads and unblocks each, remembering the one
popped last. The argument list is the waiters queue read back-to-front, matching
the `list_pop_back` loop in the source. -/
def unblock_run (ths : Tid → Thread) (wt : Option Tid) :
    List Tid → (Tid → Thread) × Option Tid
  | [] => (ths, wt)
  | t :: ts => unblock_run (thread_unblock ths t) (some t) ts

/-- `sema_up` from `synch.c`: unblocks every waiting thread (popping from the back),
increments `value` by one, and reports whether `thread_yield` is invoked — which the
source does exactly when the last-popped (front-most) waiter exists, its priority
exceeds the caller priority, and its status is `THREAD_READY`. -/
def sema_up (ths : Tid → Thread) (cur : Tid) (s : Sem) :
    Sem × (Tid → Thread) × Bool :=
  let p := unblock_run ths none s.waiters.reverse
  let yield : Bool :=
    match p.2 with
    | none => false
    | some wt =>
        decide ((p.1 wt).priority > (p.1 cur).priority ∧
                (p.1 wt).status = ThreadStatus.READY)
  (⟨(s.value + 1) % UINT_MOD, []⟩, p.1, yield)

/-- `sema_try_down` from `synch.c`: decrement and succeed when `value > 0`, else
fail without any state change. -/
def sema_try_down (s : Sem) : Sem × Bool :=
  if s.value > 0 then ({ s with value := s.value - 1 }, true) else (s, false)

/-- Modelled from the spec: the waiters queue of a semaphore physically holds bare
thread references (`&thread_current()->elem`), yet `sema_down` orders it with
`priority_semaphore_compare`, whose record type is `struct semaphore_elem`; the
layout that cast actually reads lives in `threads/thread.h`, which is not under
`src/`. Per §3 and the §9 hazard note, the comparator applied to thread records is
modelled as comparing the two threads' current `priority` fields. -/
def thread_queue_compare (ths : Tid → Thread) (a b : Tid) : Bool :=
  decide ((ths a).priority > (ths b).priority)

/-- Body of the `while (sema->value == 0)` branch of `sema_down`: enqueue the
calling thread keyed by its current priority, then block it. -/
def sema_down_enqueue (ths : Tid → Thread) (cur : Tid) (s : Sem) :
    Sem × (Tid → Thread) :=
  ({ s with waiters := list_insert_ordered (thread_queue_compare ths) cur s.waiters },
   thread_block ths cur)

/-- Exit path of `sema_down`, taken when the loop observes `value ≠ 0`:
decrement the counter. -/
def sema_down_complete (s : Sem) : Sem :=
  { s with value := s.value - 1 }

/-- One resumption of a thread inside the `sema_down` loop: if the value is still
zero, re-enqueue and block again (reporting `false`); otherwise decrement and
return (reporting `true`). -/
def sema_down_retry (ths : Tid → Thread) (t : Tid) (s : Sem) :
    Sem × (Tid → Thread) × Bool :=
  if s.value = 0 then
    let p := sema_down_enqueue ths t s
    (p.1, p.2, false)
  else
    (sema_down_complete s, ths, true)

/-! ## Lock operations (`lock_init`, `lock_acquire`, `lock_try_acquire`,
`lock_release`, `lock_held_by_current_thread`) -/

/-- Modelled from the spec: the donation-aware priority setter
`thread_given_set_priority` from `threads/thread.c` (not under `src/`); per §6 it
sets the thread effective priority and marks the thread boosted. `synch.c` always
passes `true` for the boost flag. -/
def thread_given_set_priority (ths : Tid → Thread) (t : Tid) (p : Priority) :
    Tid → Thread :=
  Function.update ths t { ths t with priority := p, is_donated := true }

/-- Modelled from the spec: `thread_set_priority` from `threads/thread.c` (not under
`src/`); per §6 and §4.2 it sets the calling thread effective priority to the given
value (in `lock_release` it is always called with the base priority, restoring
`effective_priority = base_priority`). -/
def thread_set_priority (ths : Tid → Thread) (cur : Tid) (p : Priority) :
    Tid → Thread :=
  Function.update ths cur { ths cur with priority := p }

/-- `lock_init` from `synch.c`: no holder, internal semaphore with value 1, donation
ceiling reset to the sentinel. -/
def lock_init (st : SyncState) (l : LockId) : SyncState :=
  ⟨st.threads,
   Function.update st.locks l
     { holder := none, semaphore := sema_init 1, priority_lock := PRIORITY_FAKE }⟩

/-- Key used by `lock_priority_compare` in `synch.c`: the current priority of the
thread at the head of the lock semaphore waiters list, or -1 when that list is
empty. -/
def sem_head_waiter_priority (st : SyncState) (l : LockId) : Priority :=
  match (st.locks l).semaphore.waiters with
  | [] => -1
  | t :: _ => (st.threads t).priority

/-- `lock_priority_compare` from `synch.c`: compares two locks by the priority of the
head waiter on their semaphores (with sentinel -1 for an empty list), returning
`true` when the first key is greater than or equal to the second. -/
def lock_priority_compare (st : SyncState) (l1 l2 : LockId) : Bool :=
  decide (sem_head_waiter_priority st l1 ≥ sem_head_waiter_priority st l2)

/-- Body of one iteration of the donation walk in `lock_acquire`: donate the
caller current priority to the holder `h` (`thread_given_set_priority`), and raise
the ceiling of the currently traversed lock if it is below the caller priority. -/
def donate_step (st : SyncState) (cur : Tid) (lockNext : LockId) (h : Tid) :
    SyncState :=
  ⟨thread_given_set_priority st.threads h ((st.threads cur).priority),
   if (st.locks lockNext).priority_lock < (st.threads cur).priority then
     Function.update st.locks lockNext
       { st.locks lockNext with priority_lock := (st.threads cur).priority }
   else st.locks⟩

/-- Donation walk of `lock_acquire` (the `while` loop in `synch.c`): while a holder
exists and its priority is below the caller priority, perform `donate_step`, and —
if the holder is itself waiting for another lock and the iteration counter is
still under `LOCK_LEVEL` — advance to that lock and its holder; otherwise break.
`gas` is `LOCK_LEVEL - lock_iter`, so the advance guard `lock_iter < LOCK_LEVEL`
is `gas > 0`. -/
def donate_walk (st : SyncState) (cur : Tid) (lockNext : LockId)
    (holder : Option Tid) (gas : Nat) : SyncState :=
  match holder with
  | none => st
  | some h =>
    if (st.threads h).priority < (st.threads cur).priority then
      match ((donate_step st cur lockNext h).threads h).waiting_for_lock with
      | some l2 =>
          match gas with
          | 0 => donate_step st cur lockNext h
          | g + 1 =>
              donate_walk (donate_step st cur lockNext h) cur l2
                (((donate_step st cur lockNext h).locks l2).holder) g
      | none => donate_step st cur lockNext h
    else st

/-- Part of `lock_acquire` executed before the blocking `sema_down`: in
donation-enabled mode (`thread_mlfqs` false) record `waiting_for_lock` when the
lock is held, then run the donation walk starting from the lock current holder. -/
def lock_acquire_pre (mlfqs : Bool) (st : SyncState) (cur : Tid) (l : LockId) :
    SyncState :=
  let st1 : SyncState :=
    if (st.locks l).holder ≠ none ∧ ¬mlfqs then
      ⟨Function.update st.threads cur
         { st.threads cur with waiting_for_lock := some l }, st.locks⟩
    else st
  if mlfqs then st1
  else donate_walk st1 cur l ((st1.locks l).holder) LOCK_LEVEL

/-- Part of `lock_acquire` executed once `sema_down` returns (the internal
semaphore value was observed positive): decrement the semaphore, set the holder,
and in donation-enabled mode clear `waiting_for_lock` and insert the lock into the
holder held-locks list ordered by `lock_priority_compare`. -/
def lock_acquire_complete (mlfqs : Bool) (st : SyncState) (cur : Tid) (l : LockId) :
    SyncState :=
  let lk := st.locks l
  let st1 : SyncState :=
    ⟨st.threads,
     Function.update st.locks l
       { lk with semaphore := sema_down_complete lk.semaphore, holder := some cur }⟩
  if mlfqs then st1
  else
    let th := st1.threads cur
    ⟨Function.update st1.threads cur
       { th with waiting_for_lock := none,
                 locks := list_insert_ordered (lock_priority_compare st1) l th.locks },
     st1.locks⟩

/-- `lock_acquire` in the uncontended case, where `sema_down` does not block:
the pre-phase followed immediately by the completion phase. -/
def lock_acquire_now (mlfqs : Bool) (st : SyncState) (cur : Tid) (l : LockId) :
    SyncState :=
  lock_acquire_complete mlfqs (lock_acquire_pre mlfqs st cur l) cur l

/-- `lock_try_acquire` from `synch.c`: `sema_try_down` on the internal semaphore;
on success additionally set the holder to the caller. Nothing else is touched. -/
def lock_try_acquire (st : SyncState) (cur : Tid) (l : LockId) :
    SyncState × Bool :=
  let p := sema_try_down (st.locks l).semaphore
  if p.2 then
    (⟨st.threads,
      Function.update st.locks l
        { st.locks l with semaphore := p.1, holder := some cur }⟩, true)
  else (st, false)

/-- `lock_release` from `synch.c`: clear the holder, `sema_up` the internal
semaphore, and in donation-enabled mode remove the lock from the former holder
held-locks list, reset its ceiling to the sentinel, and recompute the caller
priority — from the base priority when the list became empty (also clearing
`is_donated`), otherwise from the ceiling of the lock now at the front of the
list when that ceiling is real, and from the base priority when it is the
sentinel. -/
def lock_release (mlfqs : Bool) (st : SyncState) (cur : Tid) (l : LockId) :
    SyncState :=
  let lk := st.locks l
  let up := sema_up st.threads cur lk.semaphore
  let st1 : SyncState :=
    ⟨up.2.1, Function.update st.locks l { lk with holder := none, semaphore := up.1 }⟩
  if mlfqs then st1
  else
    let rest := (st1.threads cur).locks.erase l
    let st2 : SyncState :=
      ⟨Function.update st1.threads cur { st1.threads cur with locks := rest },
       Function.update st1.locks l { st1.locks l with priority_lock := PRIORITY_FAKE }⟩
    match rest with
    | [] =>
        let ths3 := Function.update st2.threads cur
          { st2.threads cur with is_donated := false }
        ⟨thread_set_priority ths3 cur ((ths3 cur).priority_original), st2.locks⟩
    | lf :: _ =>
        if (st2.locks lf).priority_lock ≠ PRIORITY_FAKE then
          ⟨thread_given_set_priority st2.threads cur ((st2.locks lf).priority_lock),
           st2.locks⟩
        else
          ⟨thread_set_priority st2.threads cur ((st2.threads cur).priority_original),
           st2.locks⟩

/-- `lock_held_by_current_thread` from `synch.c`. -/
def lock_held_by_current_thread (st : SyncState) (cur : Tid) (l : LockId) : Bool :=
  decide ((st.locks l).holder = some cur)

/-! ## Condition variable operations (`cond_init`, `cond_wait`, `cond_signal`,
`cond_broadcast`) -/

/-- `struct semaphore_elem` from `synch.c`: a private semaphore plus the snapshot
`highest_priority` of the enqueuing thread priority, recorded at wait time. -/
structure SemaphoreElem where
  semaphore : Sem
  highest_priority : Priority
  deriving DecidableEq

/-- `priority_semaphore_compare` from `synch.c`, applied to the record type it was
written for: true when the first `semaphore_elem` has the strictly higher
`highest_priority` snapshot. -/
def priority_semaphore_compare (a b : SemaphoreElem) : Bool :=
  decide (a.highest_priority > b.highest_priority)

/-- A condition variable: the ordered queue of wait records. -/
structure Condition where
  waiters : List SemaphoreElem
  deriving DecidableEq

/-- `cond_init` from `synch.c`. -/
def cond_init : Condition :=
  { waiters := [] }

/-- First half of `cond_wait` from `synch.c`: build the local wait record (private
semaphore with value 0, snapshot of the caller current priority) and insert it into
the condition waiters queue with `priority_semaphore_compare`. Returns the new
queue and the record. -/
def cond_wait_enqueue (ths : Tid → Thread) (cur : Tid) (c : Condition) :
    Condition × SemaphoreElem :=
  let w : SemaphoreElem :=
    { semaphore := sema_init 0, highest_priority := (ths cur).priority }
  ({ waiters := list_insert_ordered priority_semaphore_compare w c.waiters }, w)

/-- `cond_wait` up to (and including) the release of the lock — the state at which
the caller is about to block on its private semaphore: the wait record is enqueued
FIRST, and only then is the lock released. Returns the post-release global state,
the condition queue as a concurrent signaler would observe it, and the record. -/
def cond_wait_until_block (mlfqs : Bool) (st : SyncState) (c : Condition)
    (cur : Tid) (l : LockId) : SyncState × Condition × SemaphoreElem :=
  let p := cond_wait_enqueue st.threads cur c
  (lock_release mlfqs st cur l, p.1, p.2)

/-- `cond_signal` from `synch.c`: a no-op when the waiters queue is empty; otherwise
pop the front wait record and perform a single `sema_up` on its private semaphore.
Returns the remaining queue, the updated threads, and the popped record with its
semaphore as left by that one `sema_up` (or `none` for the no-op case). -/
def cond_signal (ths : Tid → Thread) (cur : Tid) (c : Condition) :
    Condition × (Tid → Thread) × Option SemaphoreElem :=
  match c.waiters with
  | [] => (c, ths, none)
  | w :: rest =>
      let up := sema_up ths cur w.semaphore
      (⟨rest⟩, up.2.1, some { w with semaphore := up.1 })

/-! ## Semaphore operation traces (for the counting invariant) -/

/-- One completed semaphore operation, as seen at a quiescent point: an `up`, the
completing exit of a (possibly blocking) `down`, a successful `try_down`, or a
failed `try_down`. -/
inductive SemaOp
  | up
  | downComplete
  | tryDownSucc
  | tryDownFail
  deriving DecidableEq

/-- Effect of one completed operation on the semaphore counter, exactly as the
source mutates `sema->value` (`unsigned` arithmetic for the increment; the
decrements are guarded and never underflow). -/
def applySemaOp (v : Nat) : SemaOp → Nat
  | SemaOp.up => (v + 1) % UINT_MOD
  | SemaOp.downComplete => v - 1
  | SemaOp.tryDownSucc => v - 1
  | SemaOp.tryDownFail => v

/-- Guard under which the source lets each operation complete: `sema_down` leaves
its loop and `sema_try_down` succeeds only when the value is positive;
`sema_try_down` fails only when it is zero; `sema_up` is unconditional. -/
def semaOpGuard (v : Nat) : SemaOp → Bool
  | SemaOp.up => true
  | SemaOp.downComplete => decide (0 < v)
  | SemaOp.tryDownSucc => decide (0 < v)
  | SemaOp.tryDownFail => decide (v = 0)

/-- A trace of completed operations is valid from `v` when every operation guard
holds at the value it observes. -/
def validTrace (v : Nat) : List SemaOp → Bool
  | [] => true
  | op :: ops => semaOpGuard v op && validTrace (applySemaOp v op) ops

/-- Value of the semaphore after a trace of completed operations. -/
def runTrace (v : Nat) (ops : List SemaOp) : Nat :=
  ops.foldl applySemaOp v

/-- Number of completed `up` operations in a trace. -/
def countUps (ops : List SemaOp) : Nat :=
  ops.countP (fun op => op = SemaOp.up)

/-- Number of completed `down` operations (blocking downs that completed plus
successful try-downs) in a trace. -/
def countDowns (ops : List SemaOp) : Nat :=
  ops.countP (fun op => op = SemaOp.downComplete || op = SemaOp.tryDownSucc)

/-! ## Two-waiter broadcast-wake scenario (for the refinement claim) -/

/-- Modelled from the spec: the scheduler (`threads/thread.c`, not under `src/`)
resumes ready threads in descending current-priority order (§5 ordering guarantee,
§6 scheduler interface). For two ready threads this picks the run order. -/
def sched_order (ths : Tid → Thread) (a b : Tid) : Tid × Tid :=
  if (ths a).priority ≥ (ths b).priority then (a, b) else (b, a)

/-- Both woken threads re-enter the `sema_down` loop in scheduler order; each either
passes the decrement or re-enqueues and blocks. Returns the final semaphore, the
final threads, and the list of threads that completed their `down`, in order. -/
def run_two_retries (ths : Tid → Thread) (a b : Tid) (s : Sem) :
    Sem × (Tid → Thread) × List Tid :=
  let o := sched_order ths a b
  let p1 := sema_down_retry ths o.1 s
  let p2 := sema_down_retry p1.2.1 o.2 p1.1
  (p2.1, p2.2.1,
   (if p1.2.2 then [o.1] else []) ++ (if p2.2.2 then [o.2] else []))

/-- The implemented behavior of one `sema_up` under contention by the two blocked
waiters `a` and `b`: broadcast-wake every waiter, then both retry in scheduler
order. -/
def broadcast_run (ths : Tid → Thread) (cur a b : Tid) (s : Sem) :
    Sem × (Tid → Thread) × List Tid :=
  let up := sema_up ths cur s
  run_two_retries up.2.1 a b up.1

/-- The spec alternative "wake the single highest-priority waiter": remove only the
front (highest-priority) waiter, increment the value, and let only that thread
retry. -/
def wake_one_run (ths : Tid → Thread) (s : Sem) :
    Sem × (Tid → Thread) × List Tid :=
  match s.waiters with
  | [] => (⟨(s.value + 1) % UINT_MOD, []⟩, ths, [])
  | w :: rest =>
      let ths1 := thread_unblock ths w
      let p := sema_down_retry ths1 w ⟨(s.value + 1) % UINT_MOD, rest⟩
      (p.1, p.2.1, if p.2.2 then [w] else [])

/-! ## Ghost view of the semaphore waiters queue

The physical queue holds bare thread references; the priority a thread had at the
moment it was enqueued is ghost information, carried here alongside the reference
so that ordering claims about enqueue-time priorities can be stated. -/

/-- A semaphore waiter together with the ghost snapshot of its priority at the
moment it was enqueued. -/
structure GhostWaiter where
  tid : Tid
  snap : Priority
  deriving DecidableEq

/-- The enqueue of `sema_down`, on the ghost-annotated queue: the comparator still
reads the threads' current priorities (that is all the source can read), and the
new entry records the enqueuing thread's current priority as its snapshot. -/
def sema_down_enqueue_ghost (ths : Tid → Thread) (cur : Tid)
    (q : List GhostWaiter) : List GhostWaiter :=
  list_insert_ordered (fun a b => thread_queue_compare ths a.tid b.tid)
    ⟨cur, (ths cur).priority⟩ q

/-- The ordering stated by the claim: descending by each queued thread's priority
at the moment it was enqueued (front ≥ back, pairwise). -/
def SortedBySnap (q : List GhostWaiter) : Prop :=
  q.Pairwise (fun a b => b.snap ≤ a.snap)

/-- A ghost queue is accurate when no queued thread's priority has changed since
it was enqueued. -/
def AccurateQueue (ths : Tid → Thread) (q : List GhostWaiter) : Prop :=
  ∀ w ∈ q, (ths w.tid).priority = w.snap

/-! ## Lock-state invariants (for the holder/held-locks claims) -/

/-- The membership half of the claimed invariant: a lock appears in a thread's
held-locks list iff that thread is the lock's current holder. -/
def HolderMembershipInv (st : SyncState) : Prop :=
  ∀ l t, (st.locks l).holder = some t ↔ l ∈ (st.threads t).locks

/-- The uniqueness half of the claimed invariant: a lock has at most one holder. -/
def AtMostOneHolder (st : SyncState) : Prop :=
  ∀ l t1 t2, (st.locks l).holder = some t1 → (st.locks l).holder = some t2 → t1 = t2

/-- Auxiliary facts tying a lock's internal semaphore to its holder field: the
value never exceeds the initial 1, and a held lock has value 0. -/
def LockSemAux (st : SyncState) : Prop :=
  ∀ l, (st.locks l).semaphore.value ≤ 1 ∧
    ((st.locks l).holder ≠ none → (st.locks l).semaphore.value = 0)

/-- No held-locks list contains a lock twice (physically guaranteed in the source
by the intrusive `lock_list_elem`). -/
def NodupLocks (st : SyncState) : Prop :=
  ∀ t, (st.threads t).locks.Nodup

/-- The inductive invariant: the claimed holder/membership property strengthened
with the semaphore-value link and list well-formedness needed to make it close
under the operations. -/
def LockInv (st : SyncState) : Prop :=
  HolderMembershipInv st ∧ LockSemAux st ∧ NodupLocks st

/-! ## The release-priority rule as worded by the claim (for comparison) -/

/-- Highest donation ceiling among a list of locks (`PRIORITY_FAKE` when the list
is empty or every ceiling is the sentinel). -/
def maxCeil (st : SyncState) : List LockId → Priority
  | [] => PRIORITY_FAKE
  | k :: ks => max ((st.locks k).priority_lock) (maxCeil st ks)

/-- Formalisation of the CLAIM's wording (spec §4.2) of the post-release priority,
for comparison with `lock_release` as implemented: recompute from the remaining
held lock with the highest donation ceiling — that ceiling if it is a real value,
the base priority if it is "none" — and the base priority when no lock remains. -/
def release_priority_per_claim (st : SyncState) (cur : Tid) (l : LockId) : Priority :=
  let rest := ((st.threads cur).locks).erase l
  match rest with
  | [] => (st.threads cur).priority_original
  | _ :: _ =>
      if maxCeil st rest ≠ PRIORITY_FAKE then maxCeil st rest
      else (st.threads cur).priority_original

/-! ## Concrete states used by counterexamples and witnesses -/

/-- A thread with the given effective/base priority and status, no donation state. -/
def mkThread (p : Priority) (s : ThreadStatus) : Thread :=
  ⟨p, p, false, none, [], s⟩

/-- Threads for the C1 counterexample: thread 0 sat down in the queue when its
priority was 5 and has since been donated priority 20 (it blocks holding another
lock on a donation chain); thread 1, at priority 15, now enqueues. -/
def thsC1 : Tid → Thread := fun t =>
  if t = 0 then ⟨20, 5, true, some 7, [], ThreadStatus.BLOCKED⟩
  else if t = 1 then mkThread 15 ThreadStatus.RUNNING
  else mkThread 0 ThreadStatus.READY

/-- Threads for the C1 witness: an accurate queue (no donation since enqueue). -/
def thsC1W : Tid → Thread := fun t =>
  if t = 0 then mkThread 9 ThreadStatus.BLOCKED
  else if t = 1 then mkThread 7 ThreadStatus.RUNNING
  else mkThread 0 ThreadStatus.READY

/-- Threads for the C2 counterexample: the queue was sorted when built, but the
back thread 1 has since been donated priority 30, so the front thread 0 (priority
5) is no longer the highest-priority waiter; the caller 2 runs at priority 10. -/
def thsC2 : Tid → Thread := fun t =>
  if t = 0 then ⟨5, 5, false, some 7, [], ThreadStatus.BLOCKED⟩
  else if t = 1 then ⟨30, 3, true, some 8, [], ThreadStatus.BLOCKED⟩
  else mkThread 10 ThreadStatus.RUNNING

/-- Threads for the C2 witness: a queue that is descending by current priority. -/
def thsC2W : Tid → Thread := fun t =>
  if t = 0 then mkThread 30 ThreadStatus.BLOCKED
  else if t = 1 then mkThread 5 ThreadStatus.BLOCKED
  else mkThread 10 ThreadStatus.RUNNING

/-- State for the C4 counterexample. Thread 0 (base priority 10, donated to 40)
holds locks 2, 1 and 3, its held-locks list in that order (the list is ordered by
`lock_priority_compare`'s head-waiter key as of each insertion, not by the
ceilings). Lock 1 has ceiling `PRIORITY_FAKE`; lock 3 carries ceiling 40, donated
by thread 4 which is blocked on it. Thread 0 now releases lock 2. -/
def stC4 : SyncState :=
  ⟨fun t =>
      if t = 0 then ⟨40, 10, true, none, [2, 1, 3], ThreadStatus.RUNNING⟩
      else if t = 4 then ⟨40, 40, false, some 3, [], ThreadStatus.BLOCKED⟩
      else mkThread 0 ThreadStatus.READY,
   fun l =>
      if l = 1 then ⟨some 0, ⟨0, []⟩, PRIORITY_FAKE⟩
      else if l = 2 then ⟨some 0, ⟨0, []⟩, PRIORITY_FAKE⟩
      else if l = 3 then ⟨some 0, ⟨0, [4]⟩, 40⟩
      else ⟨none, ⟨1, []⟩, PRIORITY_FAKE⟩⟩

/-- State for the C4 witness: thread 0 holds only lock 2 and releases it. -/
def stC4W : SyncState :=
  ⟨fun t =>
      if t = 0 then ⟨25, 10, true, none, [2], ThreadStatus.RUNNING⟩
      else mkThread 0 ThreadStatus.READY,
   fun l =>
      if l = 2 then ⟨some 0, ⟨0, []⟩, PRIORITY_FAKE⟩
      else ⟨none, ⟨1, []⟩, PRIORITY_FAKE⟩⟩

/-- The all-free state: every thread holds nothing, every lock is free with
semaphore value 1. -/
def stFree : SyncState :=
  ⟨fun _ => mkThread 31 ThreadStatus.RUNNING,
   fun _ => ⟨none, ⟨1, []⟩, PRIORITY_FAKE⟩⟩

/-- State for the C5 witness of `lock_release` preservation: thread 0 holds
lock 0. -/
def stHeld : SyncState :=
  ⟨fun t =>
      if t = 0 then ⟨31, 31, false, none, [0], ThreadStatus.RUNNING⟩
      else mkThread 31 ThreadStatus.READY,
   fun l =>
      if l = 0 then ⟨some 0, ⟨0, []⟩, PRIORITY_FAKE⟩
      else ⟨none, ⟨1, []⟩, PRIORITY_FAKE⟩⟩

/-- State for the C3 witness: the caller is thread 0 at priority 100; for each
`i < 10`, thread `i + 1` (priority `i + 1`) holds lock `i` and, for `i + 1 < 10`,
waits for lock `i + 1` — an acquire chain of depth `LOCK_LEVEL + 2`. -/
def stC3 : SyncState :=
  ⟨fun t =>
      if t = 0 then mkThread 100 ThreadStatus.RUNNING
      else if t ≤ 10 then
        ⟨Int.ofNat t, Int.ofNat t, false,
         if t < 10 then some t else none, [], ThreadStatus.BLOCKED⟩
      else mkThread 0 ThreadStatus.READY,
   fun l =>
      if l < 10 then ⟨some (l + 1), ⟨0, if l = 0 then [] else [l]⟩, PRIORITY_FAKE⟩
      else ⟨none, ⟨1, []⟩, PRIORITY_FAKE⟩⟩

/-- Wait records for the C7 witness: two queued waiters with snapshots 30 and 20,
their private semaphores holding blocked threads 5 and 6. -/
def condC7 : Condition :=
  ⟨[⟨⟨0, [5]⟩, 30⟩, ⟨⟨0, [6]⟩, 20⟩]⟩

/-- Threads for the C7/C8 witnesses. -/
def thsC8 : Tid → Thread := fun t =>
  if t = 0 then mkThread 30 ThreadStatus.BLOCKED
  else if t = 1 then mkThread 20 ThreadStatus.BLOCKED
  else if t = 5 then mkThread 30 ThreadStatus.BLOCKED
  else if t = 6 then mkThread 20 ThreadStatus.BLOCKED
  else mkThread 10 ThreadStatus.RUNNING

/-! ## Supporting lemmas: the ordered-insert primitive -/

theorem list_insert_ordered_perm (less : α → α → Bool) (x : α) (xs : List α) :
    List.Perm (list_insert_ordered less x xs) (x :: xs) := by
  induction xs with
  | nil => exact List.Perm.refl _
  | cons y ys ih =>
    simp only [list_insert_ordered]
    split
    · exact List.Perm.refl _
    · exact (ih.cons y).trans (List.Perm.swap x y ys)

theorem mem_list_insert_ordered (less : α → α → Bool) (x z : α) (xs : List α) :
    z ∈ list_insert_ordered less x xs ↔ z = x ∨ z ∈ xs := by
  rw [(list_insert_ordered_perm less x xs).mem_iff]
  simp

theorem list_insert_ordered_nodup (less : α → α → Bool) (x : α) (xs : List α)
    (hx : x ∉ xs) (h : xs.Nodup) : (list_insert_ordered less x xs).Nodup :=
  (list_insert_ordered_perm less x xs).nodup_iff.mpr (List.nodup_cons.mpr ⟨hx, h⟩)

/-- Insertion with a greater-than comparator over a key preserves descending
(non-strict) sortedness by that key. This is the shape shared by every
`list_insert_ordered` call in `synch.c`. -/
theorem list_insert_ordered_pairwise (key : α → Priority) (x : α) (xs : List α)
    (h : xs.Pairwise (fun a b => key b ≤ key a)) :
    (list_insert_ordered (fun a b => decide (key a > key b)) x xs).Pairwise
      (fun a b => key b ≤ key a) := by
  induction xs with
  | nil => simp [list_insert_ordered]
  | cons y ys ih =>
    rw [List.pairwise_cons] at h
    obtain ⟨hy, hys⟩ := h
    simp only [list_insert_ordered]
    split
    · rename_i hlt
      rw [decide_eq_true_iff] at hlt
      refine List.pairwise_cons.mpr ⟨?_, List.pairwise_cons.mpr ⟨hy, hys⟩⟩
      intro b hb
      rcases List.mem_cons.mp hb with rfl | hb
      · exact le_of_lt hlt
      · exact le_trans (hy b hb) (le_of_lt hlt)
    · rename_i hge
      rw [decide_eq_true_iff] at hge
      push_neg at hge
      refine List.pairwise_cons.mpr ⟨?_, ih hys⟩
      intro b hb
      rw [mem_list_insert_ordered] at hb
      rcases hb with rfl | hb
      · exact hge
      · exact hy b hb

/-! ## Supporting lemmas: the `sema_up` drain loop -/

theorem unblock_run_apply (l : List Tid) :
    ∀ (ths : Tid → Thread) (wt : Option Tid) (t : Tid),
      (unblock_run ths wt l).1 t =
        if t ∈ l then { ths t with status := ThreadStatus.READY } else ths t := by
  induction l with
  | nil => intro ths wt t; simp [unblock_run]
  | cons x xs ih =>
    intro ths wt t
    simp only [unblock_run]
    rw [ih]
    by_cases hx : t = x
    · subst hx
      by_cases hm : t ∈ xs <;>
        simp [hm, thread_unblock, Function.update_same]
    · by_cases hm : t ∈ xs <;>
        simp [hm, hx, thread_unblock, Function.update_noteq hx]

theorem unblock_run_last (l : List Tid) :
    ∀ (ths : Tid → Thread) (wt : Option Tid),
      (unblock_run ths wt l).2 = l.getLast?.or wt := by
  induction l with
  | nil => intro ths wt; simp [unblock_run]
  | cons x xs ih =>
    intro ths wt
    simp only [unblock_run]
    rw [ih]
    cases xs with
    | nil => simp
    | cons y ys =>
      rw [List.getLast?_cons_cons]
      cases h : (y :: ys).getLast? with
      | none => exact absurd (List.getLast?_eq_none_iff.mp h) (List.cons_ne_nil y ys)
      | some z => simp

/-- The drain loop preserves every field of every thread except `status`. -/
theorem unblock_run_priority (l : List Tid) (ths : Tid → Thread) (wt : Option Tid)
    (t : Tid) :
    ((unblock_run ths wt l).1 t).priority = (ths t).priority ∧
    ((unblock_run ths wt l).1 t).priority_original = (ths t).priority_original ∧
    ((unblock_run ths wt l).1 t).is_donated = (ths t).is_donated ∧
    ((unblock_run ths wt l).1 t).waiting_for_lock = (ths t).waiting_for_lock ∧
    ((unblock_run ths wt l).1 t).locks = (ths t).locks := by
  rw [unblock_run_apply]
  split <;> exact ⟨rfl, rfl, rfl, rfl, rfl⟩

theorem sema_up_threads (ths : Tid → Thread) (cur : Tid) (s : Sem) (t : Tid) :
    (sema_up ths cur s).2.1 t =
      if t ∈ s.waiters then { ths t with status := ThreadStatus.READY }
      else ths t := by
  show (unblock_run ths none s.waiters.reverse).1 t = _
  rw [unblock_run_apply]
  simp

theorem sema_up_yield (ths : Tid → Thread) (cur : Tid) (s : Sem) (w : Tid)
    (rest : List Tid) (h : s.waiters = w :: rest) :
    (sema_up ths cur s).2.2 =
      decide (((sema_up ths cur s).2.1 w).priority >
                ((sema_up ths cur s).2.1 cur).priority ∧
              ((sema_up ths cur s).2.1 w).status = ThreadStatus.READY) := by
  rcases s with ⟨v, ws⟩
  have h2 : ws = w :: rest := h
  subst h2
  have h3 : (unblock_run ths none ((w :: rest).reverse)).2 = some w := by
    rw [unblock_run_last, List.getLast?_reverse]
    rfl
  show (match (unblock_run ths none ((w :: rest).reverse)).2 with
        | none => false
        | some wt =>
            decide (((unblock_run ths none ((w :: rest).reverse)).1 wt).priority >
                      ((unblock_run ths none ((w :: rest).reverse)).1 cur).priority ∧
                    ((unblock_run ths none ((w :: rest).reverse)).1 wt).status =
                      ThreadStatus.READY)) = _
  rw [h3]
  rfl

/-! ## Claim C10: frame of `lock_try_acquire` -/

/-- C10: a successful `lock_try_acquire` changes only the lock's internal semaphore
value (1 to 0) and its holder field (to the caller); every thread record (so every
priority, donated flag, `waiting_for_lock` and held-locks list), every other lock,
and the lock's own waiters and donation ceiling are unchanged — in particular the
lock is not inserted into the new holder's held-locks list; a failed
`lock_try_acquire` changes no state at all. -/
theorem c10_try_acquire_frame (st : SyncState) (cur : Tid) (l : LockId) :
    ((st.locks l).semaphore.value = 1 →
      (lock_try_acquire st cur l).2 = true ∧
      ((lock_try_acquire st cur l).1.locks l).holder = some cur ∧
      ((lock_try_acquire st cur l).1.locks l).semaphore.value = 0 ∧
      ((lock_try_acquire st cur l).1.locks l).semaphore.waiters =
        (st.locks l).semaphore.waiters ∧
      ((lock_try_acquire st cur l).1.locks l).priority_lock =
        (st.locks l).priority_lock ∧
      (∀ t, (lock_try_acquire st cur l).1.threads t = st.threads t) ∧
      (∀ k, k ≠ l → (lock_try_acquire st cur l).1.locks k = st.locks k)) ∧
    ((st.locks l).semaphore.value = 0 →
      lock_try_acquire st cur l = (st, false)) := by
  constructor
  · intro h
    have hs : sema_try_down (st.locks l).semaphore =
        ({ (st.locks l).semaphore with value := 0 }, true) := by
      simp [sema_try_down, h]
    have heq : lock_try_acquire st cur l =
        (⟨st.threads, Function.update st.locks l
            { holder := some cur,
              semaphore := { value := 0, waiters := (st.locks l).semaphore.waiters },
              priority_lock := (st.locks l).priority_lock }⟩, true) := by
      simp [lock_try_acquire, hs]
    rw [heq]
    refine ⟨rfl, ?_, ?_, ?_, ?_, fun t => rfl, fun k hk => Function.update_noteq hk _ _⟩
    · simp [Function.update_same]
    · simp [Function.update_same]
    · simp [Function.update_same]
    · simp [Function.update_same]
  · intro h
    simp [lock_try_acquire, sema_try_down, h]

/-- Witness for C10: in the all-free state, thread 1 try-acquires lock 0 and the
frame conclusions hold. -/
theorem c10_witness :
    (stFree.locks 0).semaphore.value = 1 ∧
    ((lock_try_acquire stFree 1 0).2 = true ∧
     ((lock_try_acquire stFree 1 0).1.locks 0).holder = some 1 ∧
     ((lock_try_acquire stFree 1 0).1.locks 0).semaphore.value = 0 ∧
     ((lock_try_acquire stFree 1 0).1.locks 0).semaphore.waiters =
       (stFree.locks 0).semaphore.waiters ∧
     ((lock_try_acquire stFree 1 0).1.locks 0).priority_lock =
       (stFree.locks 0).priority_lock ∧
     (∀ t, (lock_try_acquire stFree 1 0).1.threads t = stFree.threads t) ∧
     (∀ k, k ≠ 0 → (lock_try_acquire stFree 1 0).1.locks k = stFree.locks k)) :=
  ⟨rfl, (c10_try_acquire_frame stFree 1 0).1 rfl⟩

/-! ## Claim C1: ordering of the semaphore waiters queue -/

/-- C1 counterexample: thread 0 was enqueued at priority 5 and was then donated
priority 20 while queued; thread 1 now enqueues at priority 15. The comparator can
only read current priorities, so thread 1 is appended behind thread 0, and the
queue is no longer descending in enqueue-time priorities (5 before 15). -/
theorem c1_counterexample :
    SortedBySnap [⟨0, 5⟩] ∧
    sema_down_enqueue_ghost thsC1 1 [⟨0, 5⟩] = [⟨0, 5⟩, ⟨1, 15⟩] ∧
    ¬ SortedBySnap (sema_down_enqueue_ghost thsC1 1 [⟨0, 5⟩]) := by
  refine ⟨?_, by decide, ?_⟩
  · simp [SortedBySnap]
  · intro h
    have : ¬ ((5 : Priority) ≥ 15) := by decide
    rw [show sema_down_enqueue_ghost thsC1 1 [⟨0, 5⟩] = [⟨0, 5⟩, ⟨1, 15⟩]
          from by decide] at h
    exact this (List.rel_of_pairwise_cons h (List.mem_singleton.mpr rfl))

/-- C1 (amended): whenever `sema_down` enqueues the calling thread, the resulting
queue is descending in the enqueue-time priorities PROVIDED no already-queued
thread's priority has changed since it was enqueued (the comparator reads current
priorities, which then coincide with the snapshots). -/
theorem c1_amended_sorted_enqueue (ths : Tid → Thread) (cur : Tid)
    (q : List GhostWaiter) (hacc : AccurateQueue ths q) (hs : SortedBySnap q) :
    SortedBySnap (sema_down_enqueue_ghost ths cur q) := by
  have hkey : q.Pairwise
      (fun a b => (ths b.tid).priority ≤ (ths a.tid).priority) := by
    refine List.Pairwise.imp_of_mem ?_ hs
    intro a b ha hb hr
    rw [hacc a ha, hacc b hb]
    exact hr
  have h2 := list_insert_ordered_pairwise (fun w : GhostWaiter => (ths w.tid).priority)
    ⟨cur, (ths cur).priority⟩ q hkey
  have hmem : ∀ w ∈ list_insert_ordered
      (fun a b : GhostWaiter => decide ((ths a.tid).priority > (ths b.tid).priority))
      ⟨cur, (ths cur).priority⟩ q, (ths w.tid).priority = w.snap := by
    intro w hw
    rw [mem_list_insert_ordered] at hw
    rcases hw with rfl | hw
    · rfl
    · exact hacc w hw
  show (list_insert_ordered
      (fun a b : GhostWaiter => thread_queue_compare ths a.tid b.tid)
      ⟨cur, (ths cur).priority⟩ q).Pairwise (fun a b => b.snap ≤ a.snap)
  refine List.Pairwise.imp_of_mem ?_ h2
  intro a b ha hb hr
  rw [← hmem a ha, ← hmem b hb]
  exact hr

/-- Witness for C1 (amended): an accurate sorted queue stays sorted after the
enqueue. -/
theorem c1_witness :
    AccurateQueue thsC1W [⟨0, 9⟩] ∧ SortedBySnap [⟨0, 9⟩] ∧
    SortedBySnap (sema_down_enqueue_ghost thsC1W 1 [⟨0, 9⟩]) :=
  ⟨by unfold AccurateQueue; decide, by simp [SortedBySnap],
   c1_amended_sorted_enqueue thsC1W 1 [⟨0, 9⟩] (by unfold AccurateQueue; decide)
     (by simp [SortedBySnap])⟩

/-! ## Claim C2: effect of `sema_up` -/

/-- C2 counterexample: waiters queue [0, 1] where thread 1 (back) was donated
priority 30 while queued and thread 0 (front) has priority 5; the caller runs at
priority 10. `sema_up` drains both and bases its yield decision on the front
thread (priority 5), so it does not yield — although the highest-priority drained
thread (priority 30) is ready and exceeds the caller's priority, which per the
claim would require a yield. -/
theorem c2_counterexample :
    (sema_up thsC2 2 ⟨0, [0, 1]⟩).2.2 = false ∧
    ((sema_up thsC2 2 ⟨0, [0, 1]⟩).2.1 1).status = ThreadStatus.READY ∧
    ((sema_up thsC2 2 ⟨0, [0, 1]⟩).2.1 2).priority <
      ((sema_up thsC2 2 ⟨0, [0, 1]⟩).2.1 1).priority := by
  decide

/-- C2 (amended): with a non-empty waiters queue, one `sema_up` unblocks every
queued thread (the queue is empty afterwards), increments `value` by exactly one
(modulo the `unsigned` width), and yields iff the FRONT-most queued thread — the
highest-priority one at the times the queue was built — has current priority
strictly greater than the caller's (it is in the ready state by then, having just
been unblocked); with an empty queue it only increments `value` and does not
yield. -/
theorem c2_amended_sema_up (ths : Tid → Thread) (cur : Tid) (s : Sem) :
    (s.waiters = [] →
      sema_up ths cur s = (⟨(s.value + 1) % UINT_MOD, []⟩, ths, false)) ∧
    (∀ w rest, s.waiters = w :: rest →
      (sema_up ths cur s).1.waiters = [] ∧
      (sema_up ths cur s).1.value = (s.value + 1) % UINT_MOD ∧
      (s.value + 1 < UINT_MOD → (sema_up ths cur s).1.value = s.value + 1) ∧
      (∀ t ∈ s.waiters, ((sema_up ths cur s).2.1 t).status = ThreadStatus.READY) ∧
      (∀ t, t ∉ s.waiters → (sema_up ths cur s).2.1 t = ths t) ∧
      ((sema_up ths cur s).2.2 = true ↔
        (ths cur).priority < (ths w).priority)) := by
  constructor
  · intro h
    simp [sema_up, h, unblock_run]
  · intro w rest h
    have hw : w ∈ s.waiters := by rw [h]; exact List.mem_cons_self w rest
    refine ⟨rfl, rfl, fun hv => Nat.mod_eq_of_lt hv, ?_, ?_, ?_⟩
    · intro t ht
      rw [sema_up_threads]
      simp [ht]
    · intro t ht
      rw [sema_up_threads]
      simp [ht]
    · rw [sema_up_yield ths cur s w rest h, decide_eq_true_iff]
      rw [sema_up_threads, sema_up_threads]
      simp only [hw, if_pos]
      by_cases hcur : cur ∈ s.waiters <;> simp [hcur]

/-- Witness for C2 (amended): a drain of the two-element queue [0, 1] with the
front thread at priority 30 and the caller at priority 10. -/
theorem c2_witness :
    ((⟨0, [0, 1]⟩ : Sem).waiters = 0 :: [1]) ∧
    ((sema_up thsC2W 2 ⟨0, [0, 1]⟩).1.waiters = [] ∧
     (sema_up thsC2W 2 ⟨0, [0, 1]⟩).1.value = (0 + 1) % UINT_MOD ∧
     (0 + 1 < UINT_MOD → (sema_up thsC2W 2 ⟨0, [0, 1]⟩).1.value = 0 + 1) ∧
     (∀ t ∈ (⟨0, [0, 1]⟩ : Sem).waiters,
       ((sema_up thsC2W 2 ⟨0, [0, 1]⟩).2.1 t).status = ThreadStatus.READY) ∧
     (∀ t, t ∉ (⟨0, [0, 1]⟩ : Sem).waiters →
       (sema_up thsC2W 2 ⟨0, [0, 1]⟩).2.1 t = thsC2W t) ∧
     ((sema_up thsC2W 2 ⟨0, [0, 1]⟩).2.2 = true ↔
       (thsC2W 2).priority < (thsC2W 0).priority)) :=
  ⟨rfl, (c2_amended_sema_up thsC2W 2 ⟨0, [0, 1]⟩).2 0 [1] rfl⟩

/-! ## Claim C7: `cond_signal` -/

/-- C7: `cond_signal` is a no-op when the waiters queue is empty; otherwise it
removes exactly the front wait-record — which carries the highest recorded
priority snapshot whenever the queue is descending in snapshots, as `cond_wait`
keeps it — leaves every other queued record in place, and performs exactly one
`sema_up` on the removed record's private semaphore (incrementing its value by
one and waking the thread blocked on it). -/
theorem c7_cond_signal (ths : Tid → Thread) (cur : Tid) (c : Condition) :
    (c.waiters = [] → cond_signal ths cur c = (c, ths, none)) ∧
    (∀ w rest, c.waiters = w :: rest →
      (cond_signal ths cur c).1.waiters = rest ∧
      (c.waiters.Pairwise
          (fun a b => b.highest_priority ≤ a.highest_priority) →
        ∀ w2 ∈ c.waiters, w2.highest_priority ≤ w.highest_priority) ∧
      (cond_signal ths cur c).2.2 =
        some { w with semaphore := (sema_up ths cur w.semaphore).1 } ∧
      (sema_up ths cur w.semaphore).1.value =
        (w.semaphore.value + 1) % UINT_MOD ∧
      (sema_up ths cur w.semaphore).1.waiters = [] ∧
      (cond_signal ths cur c).2.1 = (sema_up ths cur w.semaphore).2.1) := by
  rcases c with ⟨ws⟩
  constructor
  · intro h
    have h2 : ws = [] := h
    subst h2
    rfl
  · intro w rest h
    have h2 : ws = w :: rest := h
    subst h2
    refine ⟨rfl, ?_, rfl, rfl, rfl, rfl⟩
    intro hp w2 hw2
    rcases List.mem_cons.mp hw2 with rfl | hw2
    · exact le_refl _
    · exact List.rel_of_pairwise_cons hp hw2

/-- Witness for C7: a queue of two records with snapshots 30 and 20; the signal
pops the 30-record, leaves the 20-record, and ups the private semaphore of the
popped record once. -/
theorem c7_witness :
    (cond_signal thsC8 2 condC7).1.waiters = [⟨⟨0, [6]⟩, 20⟩] ∧
    (∀ w2 ∈ condC7.waiters, w2.highest_priority ≤ (30 : Priority)) ∧
    (cond_signal thsC8 2 condC7).2.2 =
      some ⟨(sema_up thsC8 2 ⟨0, [5]⟩).1, 30⟩ ∧
    (sema_up thsC8 2 ⟨0, [5]⟩).1.value = (0 + 1) % UINT_MOD ∧
    (sema_up thsC8 2 ⟨0, [5]⟩).1.waiters = [] ∧
    (cond_signal thsC8 2 condC7).2.1 = (sema_up thsC8 2 ⟨0, [5]⟩).2.1 := by
  have h := (c7_cond_signal thsC8 2 condC7).2 ⟨⟨0, [5]⟩, 30⟩ [⟨⟨0, [6]⟩, 20⟩] rfl
  exact ⟨h.1, h.2.1 (by simp [condC7]), h.2.2.1, h.2.2.2.1, h.2.2.2.2.1, h.2.2.2.2.2⟩

/-! ## Claim C9: `cond_wait` enqueues before releasing the lock -/

/-- C9: in `cond_wait` the wait record enters the condition queue strictly before
the lock is released, so at the moment the lock is released (and from then until
the caller suspends) the queue contains the record: a signal issued after the
release observes a queue holding this waiter, and either wakes exactly it (it is
at the front) or leaves it in the queue. -/
theorem c9_enqueue_before_release (mlfqs : Bool) (st : SyncState) (c : Condition)
    (cur : Tid) (l : LockId) :
    (cond_wait_until_block mlfqs st c cur l).2.2 ∈
      (cond_wait_until_block mlfqs st c cur l).2.1.waiters ∧
    ∀ (ths2 : Tid → Thread) (cur2 : Tid),
      (cond_wait_until_block mlfqs st c cur l).2.1.waiters.head? =
        some (cond_wait_until_block mlfqs st c cur l).2.2 ∨
      (cond_wait_until_block mlfqs st c cur l).2.2 ∈
        (cond_signal ths2 cur2 (cond_wait_until_block mlfqs st c cur l).2.1).1.waiters := by
  have hmem : (cond_wait_until_block mlfqs st c cur l).2.2 ∈
      (cond_wait_until_block mlfqs st c cur l).2.1.waiters := by
    show _ ∈ list_insert_ordered priority_semaphore_compare _ c.waiters
    rw [mem_list_insert_ordered]
    exact Or.inl rfl
  refine ⟨hmem, fun ths2 cur2 => ?_⟩
  rcases hq : (cond_wait_until_block mlfqs st c cur l).2.1.waiters with _ | ⟨hd, tl⟩
  · rw [hq] at hmem
    exact absurd hmem (List.not_mem_nil _)
  · rw [hq] at hmem
    rcases List.mem_cons.mp hmem with heq | htl
    · left
      rw [heq]
      rfl
    · right
      have hsig : (cond_signal ths2 cur2
          (cond_wait_until_block mlfqs st c cur l).2.1).1.waiters = tl := by
        rcases hcc : (cond_wait_until_block mlfqs st c cur l).2.1 with ⟨ws⟩
        have : ws = hd :: tl := by
          have := hq
          rw [hcc] at this
          exact this
        subst this
        rfl
      rw [hsig]
      exact htl

/-! ## Claim C4: priority recomputation in `lock_release` -/

/-- C4 counterexample: thread 0 (base 10, donated to 40) releases lock 2 while
still holding locks 1 (ceiling "none") and 3 (ceiling 40, a live donation), its
held-locks list being [2, 1, 3]. The source recomputes from the FRONT of the list
(lock 1, sentinel ceiling) and so resets the priority to the base 10; the claim
prescribes recomputing from the remaining lock with the highest ceiling (lock 3),
i.e. priority 40. -/
theorem c4_counterexample :
    ((lock_release false stC4 0 2).threads 0).priority = 10 ∧
    release_priority_per_claim stC4 0 2 = 40 ∧
    ((lock_release false stC4 0 2).threads 0).priority ≠
      release_priority_per_claim stC4 0 2 := by
  refine ⟨?_, ?_, ?_⟩ <;> decide

/-- C4 (amended): in donation-enabled mode, when the holder releases a lock: if
its held-locks list becomes empty, `is_donated` is cleared and the priority is
restored to the base priority; otherwise the priority is recomputed from the lock
at the FRONT of the remaining held-locks list (the list is ordered by
`lock_priority_compare`'s insertion-time keys, not by current ceilings) — set to
that lock's ceiling if it is a real value, restored to the base priority if it is
the sentinel. -/
theorem c4_amended_release_priority (st : SyncState) (cur : Tid) (l : LockId)
    (hnd : (st.threads cur).locks.Nodup) :
    ((st.threads cur).locks.erase l = [] →
      ((lock_release false st cur l).threads cur).is_donated = false ∧
      ((lock_release false st cur l).threads cur).priority =
        (st.threads cur).priority_original) ∧
    (∀ lf rs, (st.threads cur).locks.erase l = lf :: rs →
      ((lock_release false st cur l).threads cur).priority =
        (if (st.locks lf).priority_lock ≠ PRIORITY_FAKE then (st.locks lf).priority_lock
         else (st.threads cur).priority_original)) := by
  have hs1locks :
      ((sema_up st.threads cur ((st.locks l).semaphore)).2.1 cur).locks
        = (st.threads cur).locks := by
    rw [sema_up_threads]
    split <;> rfl
  have hs1orig :
      ((sema_up st.threads cur ((st.locks l).semaphore)).2.1 cur).priority_original
        = (st.threads cur).priority_original := by
    rw [sema_up_threads]
    split <;> rfl
  constructor
  · intro hrest
    simp only [lock_release, Bool.false_eq_true, if_false]
    rw [hs1locks, hrest]
    simp [thread_set_priority, Function.update_same, hs1orig]
  · intro lf rs hrest
    have hlf : lf ≠ l := by
      have hmem : lf ∈ (st.threads cur).locks.erase l := by
        rw [hrest]
        exact List.mem_cons_self lf rs
      exact ((List.Nodup.mem_erase_iff hnd).mp hmem).1
    simp only [lock_release, Bool.false_eq_true, if_false]
    rw [hs1locks, hrest]
    simp only [Function.update_noteq hlf]
    by_cases hc : (st.locks lf).priority_lock = PRIORITY_FAKE
    · simp [hc, thread_set_priority, Function.update_same, hs1orig]
    · simp [hc, thread_given_set_priority, Function.update_same]

/-- Witness for C4 (amended): thread 0 holds only lock 2 and releases it; the
held-locks list becomes empty, the donated flag is cleared and the priority
reverts to the base 10. -/
theorem c4_witness :
    (stC4W.threads 0).locks.erase 2 = [] ∧
    ((lock_release false stC4W 0 2).threads 0).is_donated = false ∧
    ((lock_release false stC4W 0 2).threads 0).priority =
      (stC4W.threads 0).priority_original :=
  ⟨rfl, (c4_amended_release_priority stC4W 0 2 (by decide)).1 rfl⟩

/-! ## Claim C6: semaphore value accounting -/

theorem validTrace_take (ops : List SemaOp) :
    ∀ (v : Nat) (k : Nat), validTrace v ops = true →
      validTrace v (ops.take k) = true := by
  induction ops with
  | nil => intro v k _; simp [List.take_nil, validTrace]
  | cons op rest ih =>
    intro v k h
    rw [validTrace, Bool.and_eq_true] at h
    cases k with
    | zero => rfl
    | succ k2 =>
      rw [List.take_succ_cons, validTrace, Bool.and_eq_true]
      exact ⟨h.1, ih _ k2 h.2⟩

theorem c6_core (ops : List SemaOp) :
    ∀ v : Nat, validTrace v ops = true → v + countUps ops < UINT_MOD →
      countDowns ops ≤ v + countUps ops ∧
      runTrace v ops = v + countUps ops - countDowns ops := by
  induction ops with
  | nil => intro v _ _; simp [runTrace, countUps, countDowns]
  | cons op rest ih =>
    intro v hvalid hof
    rw [validTrace, Bool.and_eq_true] at hvalid
    cases op with
    | up =>
      have hu : countUps (SemaOp.up :: rest) = countUps rest + 1 := by
        simp [countUps, List.countP_cons]
      have hd : countDowns (SemaOp.up :: rest) = countDowns rest := by
        simp [countDowns, List.countP_cons]
      rw [hu] at hof
      have hlt : v + 1 < UINT_MOD := by omega
      have happ : applySemaOp v SemaOp.up = v + 1 := Nat.mod_eq_of_lt hlt
      have hv2 : validTrace (v + 1) rest = true := by
        have h2 := hvalid.2
        rw [happ] at h2
        exact h2
      obtain ⟨ih1, ih2⟩ := ih (v + 1) hv2 (by omega)
      have hrun : runTrace v (SemaOp.up :: rest) = runTrace (v + 1) rest := by
        show runTrace (applySemaOp v SemaOp.up) rest = _
        rw [happ]
      rw [hu, hd, hrun]
      omega
    | downComplete =>
      have hu : countUps (SemaOp.downComplete :: rest) = countUps rest := by
        simp [countUps, List.countP_cons]
      have hd : countDowns (SemaOp.downComplete :: rest) = countDowns rest + 1 := by
        simp [countDowns, List.countP_cons]
      rw [hu] at hof
      have hpos : 0 < v := of_decide_eq_true hvalid.1
      have hv2 : validTrace (v - 1) rest = true := hvalid.2
      obtain ⟨ih1, ih2⟩ := ih (v - 1) hv2 (by omega)
      have hrun : runTrace v (SemaOp.downComplete :: rest)
          = runTrace (v - 1) rest := rfl
      rw [hu, hd, hrun]
      omega
    | tryDownSucc =>
      have hu : countUps (SemaOp.tryDownSucc :: rest) = countUps rest := by
        simp [countUps, List.countP_cons]
      have hd : countDowns (SemaOp.tryDownSucc :: rest) = countDowns rest + 1 := by
        simp [countDowns, List.countP_cons]
      rw [hu] at hof
      have hpos : 0 < v := of_decide_eq_true hvalid.1
      have hv2 : validTrace (v - 1) rest = true := hvalid.2
      obtain ⟨ih1, ih2⟩ := ih (v - 1) hv2 (by omega)
      have hrun : runTrace v (SemaOp.tryDownSucc :: rest)
          = runTrace (v - 1) rest := rfl
      rw [hu, hd, hrun]
      omega
    | tryDownFail =>
      have hu : countUps (SemaOp.tryDownFail :: rest) = countUps rest := by
        simp [countUps, List.countP_cons]
      have hd : countDowns (SemaOp.tryDownFail :: rest) = countDowns rest := by
        simp [countDowns, List.countP_cons]
      rw [hu] at hof
      have hv2 : validTrace v rest = true := hvalid.2
      obtain ⟨ih1, ih2⟩ := ih v hv2 (by omega)
      have hrun : runTrace v (SemaOp.tryDownFail :: rest) = runTrace v rest := rfl
      rw [hu, hd, hrun]
      omega

/-- C6: starting from `sema_init` with any value, for every valid sequence of
completed operations (each `down` completion and successful `try_down` observed a
positive value, each failed `try_down` observed zero) and every quiescent point —
i.e. every prefix of the trace — the number of completed downs never exceeds the
initial value plus the completed ups (so the value, kept in an `unsigned`, never
underflows and `initial + ups - downs` is never negative), and the current value
equals `initial + ups - downs` (under the no-overflow bound on the `unsigned`
counter). -/
theorem c6_value_accounting (init : Nat) (ops : List SemaOp) (k : Nat)
    (hvalid : validTrace init ops = true)
    (hof : init + countUps ops < UINT_MOD) :
    countDowns (ops.take k) ≤ init + countUps (ops.take k) ∧
    runTrace init (ops.take k) =
      init + countUps (ops.take k) - countDowns (ops.take k) := by
  have hvt : validTrace init (ops.take k) = true := validTrace_take ops init k hvalid
  have hle : countUps (ops.take k) ≤ countUps ops :=
    List.Sublist.countP_le _ (List.take_sublist k ops)
  exact c6_core (ops.take k) init hvt (by omega)

/-- Witness for C6: from initial value 1, the valid trace
[down, up, try-down-success, try-down-fail, up] has 2 ups and 2 downs and ends at
value 1. -/
theorem c6_witness :
    validTrace 1 [SemaOp.downComplete, SemaOp.up, SemaOp.tryDownSucc,
      SemaOp.tryDownFail, SemaOp.up] = true ∧
    countDowns ([SemaOp.downComplete, SemaOp.up, SemaOp.tryDownSucc,
      SemaOp.tryDownFail, SemaOp.up].take 5) ≤
      1 + countUps ([SemaOp.downComplete, SemaOp.up, SemaOp.tryDownSucc,
        SemaOp.tryDownFail, SemaOp.up].take 5) ∧
    runTrace 1 ([SemaOp.downComplete, SemaOp.up, SemaOp.tryDownSucc,
      SemaOp.tryDownFail, SemaOp.up].take 5) =
      1 + countUps ([SemaOp.downComplete, SemaOp.up, SemaOp.tryDownSucc,
        SemaOp.tryDownFail, SemaOp.up].take 5) -
        countDowns ([SemaOp.downComplete, SemaOp.up, SemaOp.tryDownSucc,
          SemaOp.tryDownFail, SemaOp.up].take 5) := by
  refine ⟨by decide, ?_, ?_⟩
  · exact (c6_value_accounting 1 _ 5 (by decide) (by decide)).1
  · exact (c6_value_accounting 1 _ 5 (by decide) (by decide)).2

/-! ## Claim C8: broadcast-wake-and-retry refines wake-one -/

theorem sema_down_retry_succ (ths : Tid → Thread) (t : Tid) (s : Sem)
    (h : s.value ≠ 0) :
    sema_down_retry ths t s = ({ s with value := s.value - 1 }, ths, true) := by
  unfold sema_down_retry
  rw [if_neg h]
  rfl

theorem sema_down_retry_fail (ths : Tid → Thread) (t : Tid) (s : Sem)
    (h : s.value = 0) :
    sema_down_retry ths t s =
      ({ s with waiters :=
          list_insert_ordered (thread_queue_compare ths) t s.waiters },
       thread_block ths t, false) := by
  unfold sema_down_retry
  rw [if_pos h]
  rfl

theorem run_two_retries_one_unit (ths : Tid → Thread) (a b : Tid)
    (hge : (ths a).priority ≥ (ths b).priority) :
    run_two_retries ths a b ⟨1, []⟩ = (⟨0, [b]⟩, thread_block ths b, [a]) := by
  have ho : sched_order ths a b = (a, b) := by
    unfold sched_order
    rw [if_pos hge]
  simp [run_two_retries, ho, sema_down_retry, sema_down_complete,
    sema_down_enqueue, list_insert_ordered, thread_block]

/-- C8: the broadcast-wake-and-retry policy of `sema_up` has the same externally
observable effect as waking only the single highest-priority waiter. If threads
`a` and `b` are blocked on a semaphore of value 0 with queue `[a, b]` (descending,
`priority a > priority b`) and no priorities change, then after one `sema_up` and
the scheduler-ordered retries, `a` alone completes the decrement, `b` is
re-enqueued and blocked again, and the final semaphore, completion order and every
thread record coincide with those of the wake-one policy. -/
theorem c8_broadcast_refines_wake_one (ths : Tid → Thread) (cur a b : Tid)
    (hab : a ≠ b)
    (ha : (ths a).status = ThreadStatus.BLOCKED)
    (hb : (ths b).status = ThreadStatus.BLOCKED)
    (hprio : (ths b).priority < (ths a).priority) :
    (broadcast_run ths cur a b ⟨0, [a, b]⟩).1 = ⟨0, [b]⟩ ∧
    (broadcast_run ths cur a b ⟨0, [a, b]⟩).2.2 = [a] ∧
    (wake_one_run ths ⟨0, [a, b]⟩).1 = ⟨0, [b]⟩ ∧
    (wake_one_run ths ⟨0, [a, b]⟩).2.2 = [a] ∧
    (∀ t, (broadcast_run ths cur a b ⟨0, [a, b]⟩).2.1 t =
          (wake_one_run ths ⟨0, [a, b]⟩).2.1 t) ∧
    ((broadcast_run ths cur a b ⟨0, [a, b]⟩).2.1 b).status =
      ThreadStatus.BLOCKED := by
  have hmod : (0 + 1) % UINT_MOD = 1 := by norm_num [UINT_MOD]
  have hUa : ((sema_up ths cur ⟨0, [a, b]⟩).2.1 a)
      = { ths a with status := ThreadStatus.READY } := by
    rw [sema_up_threads]
    simp
  have hUb : ((sema_up ths cur ⟨0, [a, b]⟩).2.1 b)
      = { ths b with status := ThreadStatus.READY } := by
    rw [sema_up_threads]
    simp
  have hUo : ∀ t, t ≠ a → t ≠ b →
      ((sema_up ths cur ⟨0, [a, b]⟩).2.1 t) = ths t := by
    intro t h1 h2
    rw [sema_up_threads]
    simp [h1, h2]
  have hge : ((sema_up ths cur ⟨0, [a, b]⟩).2.1 a).priority ≥
      ((sema_up ths cur ⟨0, [a, b]⟩).2.1 b).priority := by
    rw [hUa, hUb]
    exact le_of_lt hprio
  have hbr : broadcast_run ths cur a b ⟨0, [a, b]⟩
      = (⟨0, [b]⟩, thread_block ((sema_up ths cur ⟨0, [a, b]⟩).2.1) b, [a]) := by
    have h1 : broadcast_run ths cur a b ⟨0, [a, b]⟩
        = run_two_retries ((sema_up ths cur ⟨0, [a, b]⟩).2.1) a b
            ⟨(0 + 1) % UINT_MOD, []⟩ := rfl
    rw [h1, hmod, run_two_retries_one_unit _ a b hge]
  have hwo : wake_one_run ths ⟨0, [a, b]⟩
      = (⟨0, [b]⟩, thread_unblock ths a, [a]) := by
    have h1 : wake_one_run ths ⟨0, [a, b]⟩
        = ((sema_down_retry (thread_unblock ths a) a ⟨(0 + 1) % UINT_MOD, [b]⟩).1,
           (sema_down_retry (thread_unblock ths a) a ⟨(0 + 1) % UINT_MOD, [b]⟩).2.1,
           if (sema_down_retry (thread_unblock ths a) a
                ⟨(0 + 1) % UINT_MOD, [b]⟩).2.2 then [a] else []) := rfl
    rw [h1, hmod, sema_down_retry_succ (thread_unblock ths a) a ⟨1, [b]⟩ (by norm_num)]
    rfl
  have hpt : ∀ t, thread_block ((sema_up ths cur ⟨0, [a, b]⟩).2.1) b t
      = thread_unblock ths a t := by
    intro t
    by_cases htb : t = b
    · subst htb
      rw [thread_block, Function.update_same, thread_unblock,
        Function.update_noteq (Ne.symm hab)]
      rw [hUb]
      show ({ ths t with status := ThreadStatus.BLOCKED } : Thread) = ths t
      rw [← hb]
    · by_cases hta : t = a
      · subst hta
        rw [thread_block, Function.update_noteq htb, thread_unblock,
          Function.update_same]
        exact hUa
      · rw [thread_block, Function.update_noteq htb, thread_unblock,
          Function.update_noteq hta]
        exact hUo t hta htb
  refine ⟨?_, ?_, ?_, ?_, ?_, ?_⟩
  · rw [hbr]
  · rw [hbr]
  · rw [hwo]
  · rw [hwo]
  · intro t
    rw [hbr, hwo]
    exact hpt t
  · rw [hbr]
    show (thread_block ((sema_up ths cur ⟨0, [a, b]⟩).2.1) b b).status = _
    rw [thread_block, Function.update_same]

/-- Witness for C8: threads 0 (priority 30) and 1 (priority 20) blocked on the
semaphore, caller 2. -/
theorem c8_witness :
    ((0 : Tid) ≠ 1 ∧ (thsC8 0).status = ThreadStatus.BLOCKED ∧
     (thsC8 1).status = ThreadStatus.BLOCKED ∧
     (thsC8 1).priority < (thsC8 0).priority) ∧
    ((broadcast_run thsC8 2 0 1 ⟨0, [0, 1]⟩).1 = ⟨0, [1]⟩ ∧
     (broadcast_run thsC8 2 0 1 ⟨0, [0, 1]⟩).2.2 = [0] ∧
     (wake_one_run thsC8 ⟨0, [0, 1]⟩).1 = ⟨0, [1]⟩ ∧
     (wake_one_run thsC8 ⟨0, [0, 1]⟩).2.2 = [0] ∧
     (∀ t, (broadcast_run thsC8 2 0 1 ⟨0, [0, 1]⟩).2.1 t =
           (wake_one_run thsC8 ⟨0, [0, 1]⟩).2.1 t) ∧
     ((broadcast_run thsC8 2 0 1 ⟨0, [0, 1]⟩).2.1 1).status =
       ThreadStatus.BLOCKED) :=
  ⟨⟨by decide, by decide, by decide, by decide⟩,
   c8_broadcast_refines_wake_one thsC8 2 0 1 (by decide) (by decide) (by decide)
     (by decide)⟩

/-! ## Supporting lemmas: the donation walk -/

theorem donate_step_threads (st : SyncState) (cur : Tid) (ln : LockId) (h : Tid)
    (t : Tid) :
    (donate_step st cur ln h).threads t =
      if t = h then
        { st.threads h with priority := (st.threads cur).priority,
                            is_donated := true }
      else st.threads t := by
  show thread_given_set_priority st.threads h ((st.threads cur).priority) t = _
  unfold thread_given_set_priority
  by_cases ht : t = h
  · subst ht
    rw [if_pos rfl, Function.update_same]
  · rw [if_neg ht, Function.update_noteq ht]

theorem donate_step_thread_fields (st : SyncState) (cur : Tid) (ln : LockId)
    (h : Tid) (t : Tid) :
    ((donate_step st cur ln h).threads t).locks = (st.threads t).locks ∧
    ((donate_step st cur ln h).threads t).waiting_for_lock =
      (st.threads t).waiting_for_lock ∧
    ((donate_step st cur ln h).threads t).status = (st.threads t).status ∧
    ((donate_step st cur ln h).threads t).priority_original =
      (st.threads t).priority_original := by
  rw [donate_step_threads]
  split
  · rename_i ht
    subst ht
    exact ⟨rfl, rfl, rfl, rfl⟩
  · exact ⟨rfl, rfl, rfl, rfl⟩

theorem donate_step_locks (st : SyncState) (cur : Tid) (ln : LockId) (h : Tid)
    (k : LockId) :
    ((donate_step st cur ln h).locks k).holder = (st.locks k).holder ∧
    ((donate_step st cur ln h).locks k).semaphore = (st.locks k).semaphore := by
  simp only [donate_step]
  by_cases hc : (st.locks ln).priority_lock < (st.threads cur).priority
  · rw [if_pos hc]
    by_cases hk : k = ln
    · subst hk
      rw [Function.update_same]
      exact ⟨rfl, rfl⟩
    · rw [Function.update_noteq hk]
      exact ⟨rfl, rfl⟩
  · rw [if_neg hc]
    exact ⟨rfl, rfl⟩

theorem donate_walk_none (st : SyncState) (cur : Tid) (ln : LockId) (gas : Nat) :
    donate_walk st cur ln none gas = st := by
  cases gas with
  | zero => rfl
  | succ g => rfl

theorem donate_walk_nodonate (st : SyncState) (cur : Tid) (ln : LockId) (h : Tid)
    (gas : Nat) (hp : ¬ (st.threads h).priority < (st.threads cur).priority) :
    donate_walk st cur ln (some h) gas = st := by
  simp only [donate_walk]
  rw [if_neg hp]

theorem donate_walk_stop (st : SyncState) (cur : Tid) (ln : LockId) (h : Tid)
    (gas : Nat) (hp : (st.threads h).priority < (st.threads cur).priority)
    (hw : ((donate_step st cur ln h).threads h).waiting_for_lock = none) :
    donate_walk st cur ln (some h) gas = donate_step st cur ln h := by
  simp only [donate_walk]
  rw [if_pos hp, hw]

theorem donate_walk_adv0 (st : SyncState) (cur : Tid) (ln : LockId) (h : Tid)
    (l2 : LockId) (hp : (st.threads h).priority < (st.threads cur).priority)
    (hw : ((donate_step st cur ln h).threads h).waiting_for_lock = some l2) :
    donate_walk st cur ln (some h) 0 = donate_step st cur ln h := by
  simp only [donate_walk]
  rw [if_pos hp, hw]

theorem donate_walk_adv (st : SyncState) (cur : Tid) (ln : LockId) (h : Tid)
    (l2 : LockId) (g : Nat)
    (hp : (st.threads h).priority < (st.threads cur).priority)
    (hw : ((donate_step st cur ln h).threads h).waiting_for_lock = some l2) :
    donate_walk st cur ln (some h) (g + 1) =
      donate_walk (donate_step st cur ln h) cur l2
        (((donate_step st cur ln h).locks l2).holder) g := by
  simp only [donate_walk]
  rw [if_pos hp, hw]

theorem donate_walk_frame (gas : Nat) :
    ∀ (st : SyncState) (cur : Tid) (ln : LockId) (hd : Option Tid),
      (∀ t,
        ((donate_walk st cur ln hd gas).threads t).locks = (st.threads t).locks ∧
        ((donate_walk st cur ln hd gas).threads t).waiting_for_lock =
          (st.threads t).waiting_for_lock ∧
        ((donate_walk st cur ln hd gas).threads t).status = (st.threads t).status ∧
        ((donate_walk st cur ln hd gas).threads t).priority_original =
          (st.threads t).priority_original) ∧
      (∀ k,
        ((donate_walk st cur ln hd gas).locks k).holder = (st.locks k).holder ∧
        ((donate_walk st cur ln hd gas).locks k).semaphore =
          (st.locks k).semaphore) := by
  induction gas with
  | zero =>
    intro st cur ln hd
    cases hd with
    | none => exact ⟨fun t => ⟨rfl, rfl, rfl, rfl⟩, fun k => ⟨rfl, rfl⟩⟩
    | some h =>
      by_cases hp : (st.threads h).priority < (st.threads cur).priority
      · have heq : donate_walk st cur ln (some h) 0 = donate_step st cur ln h := by
          cases hw : ((donate_step st cur ln h).threads h).waiting_for_lock with
          | none => exact donate_walk_stop st cur ln h 0 hp hw
          | some l2 => exact donate_walk_adv0 st cur ln h l2 hp hw
        rw [heq]
        exact ⟨fun t => donate_step_thread_fields st cur ln h t,
               fun k => donate_step_locks st cur ln h k⟩
      · rw [donate_walk_nodonate st cur ln h 0 hp]
        exact ⟨fun t => ⟨rfl, rfl, rfl, rfl⟩, fun k => ⟨rfl, rfl⟩⟩
  | succ g ih =>
    intro st cur ln hd
    cases hd with
    | none => exact ⟨fun t => ⟨rfl, rfl, rfl, rfl⟩, fun k => ⟨rfl, rfl⟩⟩
    | some h =>
      by_cases hp : (st.threads h).priority < (st.threads cur).priority
      · cases hw : ((donate_step st cur ln h).threads h).waiting_for_lock with
        | none =>
          rw [donate_walk_stop st cur ln h (g + 1) hp hw]
          exact ⟨fun t => donate_step_thread_fields st cur ln h t,
                 fun k => donate_step_locks st cur ln h k⟩
        | some l2 =>
          rw [donate_walk_adv st cur ln h l2 g hp hw]
          obtain ⟨iht, ihk⟩ := ih (donate_step st cur ln h) cur l2
            (((donate_step st cur ln h).locks l2).holder)
          constructor
          · intro t
            obtain ⟨a1, a2, a3, a4⟩ := iht t
            obtain ⟨b1, b2, b3, b4⟩ := donate_step_thread_fields st cur ln h t
            exact ⟨a1.trans b1, a2.trans b2, a3.trans b3, a4.trans b4⟩
          · intro k
            obtain ⟨a1, a2⟩ := ihk k
            obtain ⟨b1, b2⟩ := donate_step_locks st cur ln h k
            exact ⟨a1.trans b1, a2.trans b2⟩
      · rw [donate_walk_nodonate st cur ln h (g + 1) hp]
        exact ⟨fun t => ⟨rfl, rfl, rfl, rfl⟩, fun k => ⟨rfl, rfl⟩⟩

/-- Behaviour of the donation walk along a chain of blocked holders: thread `T i`
holds lock `L i` and waits for lock `L (i + 1)`; every holder priority is below
the caller priority `P`. Starting at position `k` with `gas` advances left, the
walk donates `P` to exactly the holders at positions `k` through `k + gas` and
leaves every other thread record untouched. -/
theorem donate_walk_chain (cur : Tid) (T : Nat → Tid) (L : Nat → LockId) (n : Nat)
    (hinj : ∀ i j, i < n → j < n → T i = T j → i = j)
    (hcur : ∀ i, i < n → T i ≠ cur) :
    ∀ (gas k : Nat) (st : SyncState) (P : Priority),
      k + gas + 1 ≤ n →
      (st.threads cur).priority = P →
      (∀ i, k ≤ i → i < n → (st.threads (T i)).priority < P) →
      (∀ i, k ≤ i → i < n → (st.locks (L i)).holder = some (T i)) →
      (∀ i, k ≤ i → i + 1 < n →
        (st.threads (T i)).waiting_for_lock = some (L (i + 1))) →
      (∀ i, k ≤ i → i ≤ k + gas →
        ((donate_walk st cur (L k) (some (T k)) gas).threads (T i)).priority = P ∧
        ((donate_walk st cur (L k) (some (T k)) gas).threads (T i)).is_donated
          = true) ∧
      (∀ t, (∀ i, k ≤ i → i ≤ k + gas → t ≠ T i) →
        (donate_walk st cur (L k) (some (T k)) gas).threads t = st.threads t) := by
  intro gas
  induction gas with
  | zero =>
    intro k st P hkn hcp hprio hhold hwait
    have hk_lt : k < n := by omega
    have hp : (st.threads (T k)).priority < (st.threads cur).priority := by
      rw [hcp]
      exact hprio k le_rfl hk_lt
    have heq : donate_walk st cur (L k) (some (T k)) 0
        = donate_step st cur (L k) (T k) := by
      cases hw : ((donate_step st cur (L k) (T k)).threads (T k)).waiting_for_lock with
      | none => exact donate_walk_stop st cur (L k) (T k) 0 hp hw
      | some l2 => exact donate_walk_adv0 st cur (L k) (T k) l2 hp hw
    rw [heq]
    constructor
    · intro i hki hik
      have hik0 : i = k := by omega
      subst hik0
      rw [donate_step_threads, if_pos rfl]
      exact ⟨hcp, rfl⟩
    · intro t ht
      rw [donate_step_threads, if_neg (ht k le_rfl (by omega))]
  | succ g ih =>
    intro k st P hkn hcp hprio hhold hwait
    have hk_lt : k < n := by omega
    have hk1_lt : k + 1 < n := by omega
    have hp : (st.threads (T k)).priority < (st.threads cur).priority := by
      rw [hcp]
      exact hprio k le_rfl hk_lt
    have hw2 : ((donate_step st cur (L k) (T k)).threads (T k)).waiting_for_lock
        = some (L (k + 1)) := by
      rw [(donate_step_thread_fields st cur (L k) (T k) (T k)).2.1]
      exact hwait k le_rfl hk1_lt
    have hh2 : ((donate_step st cur (L k) (T k)).locks (L (k + 1))).holder
        = some (T (k + 1)) := by
      rw [(donate_step_locks st cur (L k) (T k) (L (k + 1))).1]
      exact hhold (k + 1) (by omega) hk1_lt
    rw [donate_walk_adv st cur (L k) (T k) (L (k + 1)) g hp hw2, hh2]
    have hcp1 : ((donate_step st cur (L k) (T k)).threads cur).priority = P := by
      rw [donate_step_threads, if_neg (Ne.symm (hcur k hk_lt))]
      exact hcp
    have hprio1 : ∀ i, k + 1 ≤ i → i < n →
        ((donate_step st cur (L k) (T k)).threads (T i)).priority < P := by
      intro i h1 h2
      rw [donate_step_threads, if_neg]
      · exact hprio i (by omega) h2
      · intro heq
        have := hinj i k h2 hk_lt heq
        omega
    have hhold1 : ∀ i, k + 1 ≤ i → i < n →
        ((donate_step st cur (L k) (T k)).locks (L i)).holder = some (T i) := by
      intro i h1 h2
      rw [(donate_step_locks st cur (L k) (T k) (L i)).1]
      exact hhold i (by omega) h2
    have hwait1 : ∀ i, k + 1 ≤ i → i + 1 < n →
        ((donate_step st cur (L k) (T k)).threads (T i)).waiting_for_lock
          = some (L (i + 1)) := by
      intro i h1 h2
      rw [(donate_step_thread_fields st cur (L k) (T k) (T i)).2.1]
      exact hwait i (by omega) h2
    obtain ⟨ihA, ihB⟩ := ih (k + 1) (donate_step st cur (L k) (T k)) P
      (by omega) hcp1 hprio1 hhold1 hwait1
    constructor
    · intro i hki hik
      by_cases hik2 : i = k
      · have h_tk : ∀ j, k + 1 ≤ j → j ≤ k + 1 + g → T k ≠ T j := by
          intro j h1 h2 heq
          have := hinj k j hk_lt (by omega) heq
          omega
        rw [hik2]
        rw [ihB (T k) h_tk]
        rw [donate_step_threads, if_pos rfl]
        exact ⟨hcp, rfl⟩
      · have hik3 : k + 1 ≤ i := by omega
        exact ihA i hik3 (by omega)
    · intro t ht
      have ht1 : ∀ j, k + 1 ≤ j → j ≤ k + 1 + g → t ≠ T j := by
        intro j h1 h2
        exact ht j (by omega) (by omega)
      rw [ihB t ht1]
      rw [donate_step_threads, if_neg (ht k le_rfl (by omega))]

/-! ## Claim C3: depth bound of the donation walk -/

/-- C3: in donation-enabled mode, on an ownership chain of blocked lock holders of
depth at least `LOCK_LEVEL + 2` at the time of the `lock_acquire` call, the
donation walk raises holder priorities only up to the fixed depth bound: holders
at chain positions 0 through `LOCK_LEVEL` are donated the caller priority and
marked donated, the holder at position `LOCK_LEVEL + 1` (beyond the depth limit)
is left completely untouched, and the walk terminates by simply breaking out of
its loop — it is a total function that signals no error. -/
theorem c3_donation_depth_bound (st : SyncState) (cur : Tid)
    (T : Nat → Tid) (L : Nat → LockId) (n : Nat)
    (hn : LOCK_LEVEL + 2 ≤ n)
    (hprio : ∀ i, i < n → (st.threads (T i)).priority < (st.threads cur).priority)
    (hhold : ∀ i, i < n → (st.locks (L i)).holder = some (T i))
    (hwait : ∀ i, i + 1 < n →
      (st.threads (T i)).waiting_for_lock = some (L (i + 1)))
    (hinj : ∀ i j, i < n → j < n → T i = T j → i = j)
    (hcur : ∀ i, i < n → T i ≠ cur) :
    (∀ i, i ≤ LOCK_LEVEL →
      ((lock_acquire_pre false st cur (L 0)).threads (T i)).priority =
        (st.threads cur).priority ∧
      ((lock_acquire_pre false st cur (L 0)).threads (T i)).is_donated = true) ∧
    (lock_acquire_pre false st cur (L 0)).threads (T (LOCK_LEVEL + 1)) =
      st.threads (T (LOCK_LEVEL + 1)) := by
  have hne : (st.locks (L 0)).holder ≠ none ∧ ¬(false : Bool) = true := by
    constructor
    · rw [hhold 0 (by omega)]
      simp
    · simp
  have hpre : lock_acquire_pre false st cur (L 0)
      = donate_walk
          ⟨Function.update st.threads cur
             { st.threads cur with waiting_for_lock := some (L 0) }, st.locks⟩
          cur (L 0) ((st.locks (L 0)).holder) LOCK_LEVEL := by
    unfold lock_acquire_pre
    rw [if_pos hne]
    rfl
  have hthW : ∀ t, t ≠ cur →
      (Function.update st.threads cur
        { st.threads cur with waiting_for_lock := some (L 0) }) t
        = st.threads t := by
    intro t ht
    exact Function.update_noteq ht _ _
  have hcpW : ((Function.update st.threads cur
      { st.threads cur with waiting_for_lock := some (L 0) }) cur).priority
        = (st.threads cur).priority := by
    rw [Function.update_same]
  have hprioW : ∀ i, 0 ≤ i → i < n →
      (((⟨Function.update st.threads cur
          { st.threads cur with waiting_for_lock := some (L 0) },
          st.locks⟩ : SyncState)).threads (T i)).priority
        < (st.threads cur).priority := by
    intro i _ h2
    show ((Function.update st.threads cur
        { st.threads cur with waiting_for_lock := some (L 0) }) (T i)).priority < _
    rw [hthW (T i) (hcur i h2)]
    exact hprio i h2
  have hholdW : ∀ i, 0 ≤ i → i < n →
      (((⟨Function.update st.threads cur
          { st.threads cur with waiting_for_lock := some (L 0) },
          st.locks⟩ : SyncState)).locks (L i)).holder = some (T i) := by
    intro i _ h2
    exact hhold i h2
  have hwaitW : ∀ i, 0 ≤ i → i + 1 < n →
      (((⟨Function.update st.threads cur
          { st.threads cur with waiting_for_lock := some (L 0) },
          st.locks⟩ : SyncState)).threads (T i)).waiting_for_lock
        = some (L (i + 1)) := by
    intro i _ h2
    show ((Function.update st.threads cur
        { st.threads cur with waiting_for_lock := some (L 0) }) (T i)).waiting_for_lock = _
    rw [hthW (T i) (hcur i (by omega))]
    exact hwait i h2
  obtain ⟨hA, hB⟩ := donate_walk_chain cur T L n hinj hcur LOCK_LEVEL 0
    ⟨Function.update st.threads cur
       { st.threads cur with waiting_for_lock := some (L 0) }, st.locks⟩
    ((st.threads cur).priority) (by omega) hcpW hprioW hholdW hwaitW
  constructor
  · intro i hi
    rw [hpre, hhold 0 (by omega)]
    exact hA i (by omega) (by omega)
  · rw [hpre, hhold 0 (by omega)]
    have h_ne : ∀ j, 0 ≤ j → j ≤ 0 + LOCK_LEVEL → T (LOCK_LEVEL + 1) ≠ T j := by
      intro j h1 h2 heq
      have := hinj (LOCK_LEVEL + 1) j (by omega) (by omega) heq
      omega
    rw [hB (T (LOCK_LEVEL + 1)) h_ne]
    show (Function.update st.threads cur
        { st.threads cur with waiting_for_lock := some (L 0) }) (T (LOCK_LEVEL + 1))
        = st.threads (T (LOCK_LEVEL + 1))
    exact Function.update_noteq (hcur (LOCK_LEVEL + 1) (by omega)) _ _

/-- Witness for C3: the concrete depth-10 chain of `stC3` (caller 0 at priority
100; thread `i + 1` holds lock `i` and waits for lock `i + 1`): holders at
positions 0 through 8 are donated priority 100, the holder at position 9 (thread
10) is untouched. -/
theorem c3_witness :
    (∀ i, i < 10 →
      (stC3.threads (i + 1)).priority < (stC3.threads 0).priority) ∧
    ((∀ i, i ≤ LOCK_LEVEL →
        ((lock_acquire_pre false stC3 0 0).threads (i + 1)).priority =
          (stC3.threads 0).priority ∧
        ((lock_acquire_pre false stC3 0 0).threads (i + 1)).is_donated = true) ∧
      (lock_acquire_pre false stC3 0 0).threads (LOCK_LEVEL + 1 + 1) =
        stC3.threads (LOCK_LEVEL + 1 + 1)) :=
  ⟨by decide,
   c3_donation_depth_bound stC3 0 (fun i => i + 1) (fun i => i) 10
     (by decide) (by decide) (by decide)
     (by
       intro i hi
       have h9 : i < 9 := by omega
       exact (show ∀ j, j < 9 →
           (stC3.threads (j + 1)).waiting_for_lock = some (j + 1) by decide)
         i h9)
     (by
       intro i j h1 h2 heq
       have heq2 : i + 1 = j + 1 := heq
       omega)
     (fun i hi => Nat.succ_ne_zero i)⟩

/-! ## Supporting lemmas: lock-state invariant preservation -/

theorem lock_acquire_pre_frame (st : SyncState) (cur : Tid) (l : LockId) :
    (∀ t, ((lock_acquire_pre false st cur l).threads t).locks
        = (st.threads t).locks) ∧
    (∀ k, ((lock_acquire_pre false st cur l).locks k).holder
        = (st.locks k).holder ∧
      ((lock_acquire_pre false st cur l).locks k).semaphore
        = (st.locks k).semaphore) := by
  by_cases hcond : (st.locks l).holder ≠ none ∧ ¬(false : Bool) = true
  · have heq : lock_acquire_pre false st cur l
        = donate_walk
            ⟨Function.update st.threads cur
               { st.threads cur with waiting_for_lock := some l }, st.locks⟩
            cur l ((st.locks l).holder) LOCK_LEVEL := by
      unfold lock_acquire_pre
      rw [if_pos hcond]
      rfl
    rw [heq]
    obtain ⟨hT, hK⟩ := donate_walk_frame LOCK_LEVEL
      ⟨Function.update st.threads cur
         { st.threads cur with waiting_for_lock := some l }, st.locks⟩
      cur l ((st.locks l).holder)
    constructor
    · intro t
      rw [(hT t).1]
      show ((Function.update st.threads cur
          { st.threads cur with waiting_for_lock := some l }) t).locks = _
      by_cases ht : t = cur
      · subst ht
        rw [Function.update_same]
      · rw [Function.update_noteq ht]
    · intro k
      exact hK k
  · have heq : lock_acquire_pre false st cur l
        = donate_walk st cur l ((st.locks l).holder) LOCK_LEVEL := by
      unfold lock_acquire_pre
      rw [if_neg hcond]
      rfl
    rw [heq]
    obtain ⟨hT, hK⟩ := donate_walk_frame LOCK_LEVEL st cur l ((st.locks l).holder)
    exact ⟨fun t => (hT t).1, hK⟩

theorem lockInv_transfer (st st2 : SyncState)
    (hT : ∀ t, (st2.threads t).locks = (st.threads t).locks)
    (hH : ∀ k, (st2.locks k).holder = (st.locks k).holder)
    (hS : ∀ k, (st2.locks k).semaphore = (st.locks k).semaphore)
    (h : LockInv st) : LockInv st2 := by
  obtain ⟨h1, h2, h3⟩ := h
  refine ⟨?_, ?_, ?_⟩
  · intro k t
    rw [hH k, hT t]
    exact h1 k t
  · intro k
    rw [hH k, hS k]
    exact h2 k
  · intro t
    rw [hT t]
    exact h3 t

theorem lock_init_preserves (st : SyncState) (l : LockId)
    (hfresh : ∀ t, l ∉ (st.threads t).locks) (h : LockInv st) :
    LockInv (lock_init st l) := by
  obtain ⟨h1, h2, h3⟩ := h
  have hE : (lock_init st l).locks
      = Function.update st.locks l
          { holder := none, semaphore := sema_init 1,
            priority_lock := PRIORITY_FAKE } := rfl
  have hTh : (lock_init st l).threads = st.threads := rfl
  refine ⟨?_, ?_, ?_⟩
  · intro k t
    rw [hE, hTh]
    by_cases hk : k = l
    · subst hk
      rw [Function.update_same]
      constructor
      · intro hc
        exact Option.noConfusion hc
      · intro hm
        exact absurd hm (hfresh t)
    · rw [Function.update_noteq hk]
      exact h1 k t
  · intro k
    rw [hE]
    by_cases hk : k = l
    · subst hk
      rw [Function.update_same]
      exact ⟨le_refl 1, fun hc => absurd rfl hc⟩
    · rw [Function.update_noteq hk]
      exact h2 k
  · intro t
    rw [hTh]
    exact h3 t

theorem lock_acquire_complete_preserves (st : SyncState) (cur : Tid) (l : LockId)
    (h : LockInv st) (hv : 0 < (st.locks l).semaphore.value) :
    LockInv (lock_acquire_complete false st cur l) := by
  obtain ⟨h1, h2, h3⟩ := h
  have hnone : (st.locks l).holder = none := by
    by_contra hc
    have := (h2 l).2 hc
    omega
  have hnotmem : ∀ t, l ∉ (st.threads t).locks := by
    intro t hm
    have := (h1 l t).mpr hm
    rw [hnone] at this
    exact Option.noConfusion this
  have hv1 : (st.locks l).semaphore.value = 1 := by
    have := (h2 l).1
    omega
  have hE : (lock_acquire_complete false st cur l).locks
      = Function.update st.locks l
          { st.locks l with
            semaphore := sema_down_complete (st.locks l).semaphore,
            holder := some cur } := rfl
  have hTh : (lock_acquire_complete false st cur l).threads
      = Function.update st.threads cur
          { st.threads cur with
            waiting_for_lock := none,
            locks := list_insert_ordered
              (lock_priority_compare
                ⟨st.threads, Function.update st.locks l
                  { st.locks l with
                    semaphore := sema_down_complete (st.locks l).semaphore,
                    holder := some cur }⟩)
              l ((st.threads cur).locks) } := rfl
  refine ⟨?_, ?_, ?_⟩
  · intro k t
    rw [hE, hTh]
    by_cases hk : k = l
    · subst hk
      rw [Function.update_same]
      by_cases ht : t = cur
      · subst ht
        rw [Function.update_same]
        refine iff_of_true rfl ?_
        exact (mem_list_insert_ordered _ _ _ _).mpr (Or.inl rfl)
      · rw [Function.update_noteq ht]
        refine iff_of_false ?_ (hnotmem t)
        intro hc
        exact ht (Option.some.inj hc).symm
    · rw [Function.update_noteq hk]
      by_cases ht : t = cur
      · rw [ht, Function.update_same]
        show _ ↔ k ∈ list_insert_ordered _ l ((st.threads cur).locks)
        rw [mem_list_insert_ordered]
        constructor
        · intro hc
          exact Or.inr ((h1 k cur).mp hc)
        · intro hm
          rcases hm with rfl | hm
          · exact absurd rfl hk
          · exact (h1 k cur).mpr hm
      · rw [Function.update_noteq ht]
        exact h1 k t
  · intro k
    rw [hE]
    by_cases hk : k = l
    · subst hk
      rw [Function.update_same]
      constructor
      · show (st.locks k).semaphore.value - 1 ≤ 1
        omega
      · intro _
        show (st.locks k).semaphore.value - 1 = 0
        omega
    · rw [Function.update_noteq hk]
      exact h2 k
  · intro t
    rw [hTh]
    by_cases ht : t = cur
    · subst ht
      rw [Function.update_same]
      exact list_insert_ordered_nodup _ l _ (hnotmem t) (h3 t)
    · rw [Function.update_noteq ht]
      exact h3 t

theorem lock_acquire_now_preserves (st : SyncState) (cur : Tid) (l : LockId)
    (h : LockInv st) (hv : 0 < (st.locks l).semaphore.value) :
    LockInv (lock_acquire_now false st cur l) := by
  obtain ⟨hT, hK⟩ := lock_acquire_pre_frame st cur l
  have hpre : LockInv (lock_acquire_pre false st cur l) :=
    lockInv_transfer st _ hT (fun k => (hK k).1) (fun k => (hK k).2) h
  have hv2 : 0 < ((lock_acquire_pre false st cur l).locks l).semaphore.value := by
    rw [(hK l).2]
    exact hv
  exact lock_acquire_complete_preserves _ cur l hpre hv2

theorem thread_set_priority_locks (ths : Tid → Thread) (c t : Tid) (p : Priority) :
    (thread_set_priority ths c p t).locks = (ths t).locks := by
  unfold thread_set_priority
  by_cases ht : t = c
  · subst ht
    rw [Function.update_same]
  · rw [Function.update_noteq ht]

theorem thread_given_set_priority_locks (ths : Tid → Thread) (c t : Tid)
    (p : Priority) :
    (thread_given_set_priority ths c p t).locks = (ths t).locks := by
  unfold thread_given_set_priority
  by_cases ht : t = c
  · subst ht
    rw [Function.update_same]
  · rw [Function.update_noteq ht]

theorem lock_release_locks_eq (st : SyncState) (cur : Tid) (l : LockId) :
    (lock_release false st cur l).locks
      = Function.update
          (Function.update st.locks l
            { st.locks l with
              holder := none,
              semaphore := (sema_up st.threads cur ((st.locks l).semaphore)).1 }) l
          { (Function.update st.locks l
              { st.locks l with
                holder := none,
                semaphore :=
                  (sema_up st.threads cur ((st.locks l).semaphore)).1 }) l
            with priority_lock := PRIORITY_FAKE } := by
  simp only [lock_release, Bool.false_eq_true, if_false]
  split
  · rfl
  · split <;> rfl

theorem lock_release_threads_locks (st : SyncState) (cur : Tid) (l : LockId) :
    ∀ t, ((lock_release false st cur l).threads t).locks
      = (if t = cur
         then ((sema_up st.threads cur ((st.locks l).semaphore)).2.1 cur).locks.erase l
         else ((sema_up st.threads cur ((st.locks l).semaphore)).2.1 t).locks) := by
  intro t
  simp only [lock_release, Bool.false_eq_true, if_false]
  split
  · by_cases ht : t = cur
    · subst ht
      simp [thread_set_priority, Function.update_same]
    · simp [thread_set_priority, Function.update_noteq ht, ht]
  · split
    · by_cases ht : t = cur
      · subst ht
        simp [thread_given_set_priority, Function.update_same]
      · simp [thread_given_set_priority, Function.update_noteq ht, ht]
    · by_cases ht : t = cur
      · subst ht
        simp [thread_set_priority, Function.update_same]
      · simp [thread_set_priority, Function.update_noteq ht, ht]

theorem lock_release_preserves (st : SyncState) (cur : Tid) (l : LockId)
    (h : LockInv st) (hold : (st.locks l).holder = some cur) :
    LockInv (lock_release false st cur l) := by
  obtain ⟨h1, h2, h3⟩ := h
  have hdrain : ∀ t, ((sema_up st.threads cur ((st.locks l).semaphore)).2.1 t).locks
      = (st.threads t).locks := by
    intro t
    rw [sema_up_threads]
    split <;> rfl
  have hT : ∀ t, ((lock_release false st cur l).threads t).locks
      = (if t = cur then (st.threads cur).locks.erase l
         else (st.threads t).locks) := by
    intro t
    rw [lock_release_threads_locks st cur l t, hdrain cur, hdrain t]
  have hE := lock_release_locks_eq st cur l
  have hHold : ∀ k, ((lock_release false st cur l).locks k).holder
      = (if k = l then none else (st.locks k).holder) := by
    intro k
    rw [hE]
    by_cases hk : k = l
    · subst hk
      rw [if_pos rfl, Function.update_same]
      show ((Function.update st.locks k
          { st.locks k with
            holder := none,
            semaphore := (sema_up st.threads cur ((st.locks k).semaphore)).1 }) k).holder
        = none
      rw [Function.update_same]
    · rw [if_neg hk, Function.update_noteq hk, Function.update_noteq hk]
  have hVal : ∀ k, ((lock_release false st cur l).locks k).semaphore.value
      = (if k = l then ((st.locks l).semaphore.value + 1) % UINT_MOD
         else (st.locks k).semaphore.value) := by
    intro k
    rw [hE]
    by_cases hk : k = l
    · subst hk
      rw [if_pos rfl, Function.update_same]
      show ((Function.update st.locks k
          { st.locks k with
            holder := none,
            semaphore := (sema_up st.threads cur ((st.locks k).semaphore)).1 }) k).semaphore.value
        = ((st.locks k).semaphore.value + 1) % UINT_MOD
      rw [Function.update_same]
      rfl
    · rw [if_neg hk, Function.update_noteq hk, Function.update_noteq hk]
  have hv0 : (st.locks l).semaphore.value = 0 := by
    apply (h2 l).2
    rw [hold]
    simp
  refine ⟨?_, ?_, ?_⟩
  · intro k t
    rw [hHold k, hT t]
    by_cases hk : k = l
    · subst hk
      rw [if_pos rfl]
      by_cases ht : t = cur
      · subst ht
        rw [if_pos rfl]
        apply iff_of_false
        · simp
        · intro hm
          exact ((List.Nodup.mem_erase_iff (h3 t)).mp hm).1 rfl
      · rw [if_neg ht]
        apply iff_of_false
        · simp
        · intro hm
          have hc := (h1 k t).mpr hm
          rw [hold] at hc
          exact ht (Option.some.inj hc).symm
    · rw [if_neg hk]
      by_cases ht : t = cur
      · subst ht
        rw [if_pos rfl, List.mem_erase_of_ne hk]
        exact h1 k t
      · rw [if_neg ht]
        exact h1 k t
  · intro k
    constructor
    · rw [hVal k]
      by_cases hk : k = l
      · rw [if_pos hk, hv0]
        norm_num [UINT_MOD]
      · rw [if_neg hk]
        exact (h2 k).1
    · intro hc
      rw [hHold k] at hc
      rw [hVal k]
      by_cases hk : k = l
      · rw [if_pos hk] at hc
        exact absurd rfl hc
      · rw [if_neg hk] at hc
        rw [if_neg hk]
        exact (h2 k).2 hc
  · intro t
    rw [hT t]
    by_cases ht : t = cur
    · rw [if_pos ht]
      exact List.Nodup.erase l (h3 cur)
    · rw [if_neg ht]
      exact h3 t

/-! ## Claim C5: the holder/held-locks invariant -/

/-- C5 counterexample: from the all-free state (which satisfies the full
invariant), a successful `lock_try_acquire` sets the lock holder but does not
insert the lock into the caller's held-locks list, so the membership iff of the
claimed invariant is violated — `lock_try_acquire` does NOT preserve it. -/
theorem c5_counterexample :
    LockInv stFree ∧
    (lock_try_acquire stFree 0 0).2 = true ∧
    ¬ HolderMembershipInv (lock_try_acquire stFree 0 0).1 := by
  refine ⟨⟨?_, ?_, ?_⟩, rfl, ?_⟩
  · intro l t
    constructor
    · intro hc
      exact Option.noConfusion hc
    · intro hm
      exact absurd hm (List.not_mem_nil _)
  · intro l
    exact ⟨le_refl 1, fun hc => absurd rfl hc⟩
  · intro t
    exact List.nodup_nil
  · intro hinv
    have hh : ((lock_try_acquire stFree 0 0).1.locks 0).holder = some 0 := rfl
    have hm := (hinv 0 0).mp hh
    exact absurd hm (List.not_mem_nil _)

/-- C5 (amended): in donation-enabled mode the invariant — at most one holder per
lock, and a lock is in a thread's held-locks list iff that thread is its holder —
is preserved by `lock_init` (of a lock not presently in any held-locks list),
`lock_acquire` (both the uncontended call and the completion after blocking) and
`lock_release`; `LockInv`, the strengthened inductive form proved here, adds the
semaphore-value link and list well-formedness. A successful `lock_try_acquire`
preserves at-most-one-holder (the holder is a single optional field) but breaks
the membership iff, as the counterexample shows. -/
theorem c5_amended_invariant :
    (∀ st, LockInv st → AtMostOneHolder st ∧ HolderMembershipInv st) ∧
    (∀ st l, (∀ t, l ∉ (st.threads t).locks) → LockInv st →
      LockInv (lock_init st l)) ∧
    (∀ st cur l, LockInv st → 0 < (st.locks l).semaphore.value →
      LockInv (lock_acquire_now false st cur l)) ∧
    (∀ st cur l, LockInv st → 0 < (st.locks l).semaphore.value →
      LockInv (lock_acquire_complete false st cur l)) ∧
    (∀ st cur l, LockInv st → (st.locks l).holder = some cur →
      LockInv (lock_release false st cur l)) := by
  refine ⟨?_, ?_, ?_, ?_, ?_⟩
  · intro st h
    refine ⟨?_, h.1⟩
    intro k t1 t2 e1 e2
    rw [e1] at e2
    exact Option.some.inj e2
  · intro st l hfresh h
    exact lock_init_preserves st l hfresh h
  · intro st cur l h hv
    exact lock_acquire_now_preserves st cur l h hv
  · intro st cur l h hv
    exact lock_acquire_complete_preserves st cur l h hv
  · intro st cur l h hold
    exact lock_release_preserves st cur l h hold

/-- Witness for C5 (amended): thread 0 holds lock 0 in `stHeld` (the invariant
holds there) and releases it; the invariant still holds afterwards. The
uncontended acquire of the free lock 1 from the same state also preserves it. -/
theorem c5_witness :
    LockInv stHeld ∧ (stHeld.locks 0).holder = some 0 ∧
    LockInv (lock_release false stHeld 0 0) ∧
    0 < (stHeld.locks 1).semaphore.value ∧
    LockInv (lock_acquire_now false stHeld 0 1) := by
  have hinv : LockInv stHeld := by
    refine ⟨?_, ?_, ?_⟩
    · intro l t
      by_cases hl : l = 0
      · subst hl
        by_cases ht : t = 0
        · subst ht
          simp [stHeld]
        · have ht2 : ¬((0 : Tid) = t) := fun hx => ht hx.symm
          simp [stHeld, mkThread, ht, ht2]
      · by_cases ht : t = 0
        · subst ht
          simp [stHeld, mkThread, hl]
        · simp [stHeld, mkThread, hl, ht]
    · intro l
      by_cases hl : l = 0
      · subst hl
        simp [stHeld]
      · simp [stHeld, hl]
    · intro t
      by_cases ht : t = 0
      · subst ht
        simp [stHeld]
      · have ht2 : ¬(0 = t) := fun hx => ht hx.symm
        simp [stHeld, mkThread, ht, ht2]
  exact ⟨hinv, rfl,
    c5_amended_invariant.2.2.2.2 stHeld 0 0 hinv rfl,
    Nat.one_pos,
    c5_amended_invariant.2.2.1 stHeld 0 1 hinv Nat.one_pos⟩

end Synch
